import Mathlib

set_option maxRecDepth 10000
set_option linter.unusedVariables false

/-!
Verification development for the CM (Connectivity Modifier) pipeline.

The engine `algorithm_g` (hm01/cm.py) is embedded shallowly.  The external
collaborators that the engine calls but whose code lives outside the core
(the realized-subgraph mincut, the pruner, the validity threshold, the
reclusterer, and the modularity query) are gathered into an `Env` record of
deterministic functions, exactly the interface the engine consumes.  All of
the engine's own logic — work stack, label stamping, the hierarchy tree
bookkeeping, the δ-pruning child, the split/accept decision — is translated
directly from `cm.py`.
-/

/-- The `IntangibleSubgraph(subset, index)` dataclass from hm01/graph.py as used by cm.py:
a node list plus a string cluster index; `n()` is the node count. -/
structure IntangibleSubgraph where
  subset : List Nat
  index : String
  deriving DecidableEq, Repr

def IntangibleSubgraph.n (g : IntangibleSubgraph) : Nat := g.subset.length

def IntangibleSubgraph.nodes (g : IntangibleSubgraph) : List Nat := g.subset

/-- A realized subgraph as the engine observes it: its current index and its
current node list.  The induced adjacency is not stored here; every
operation that depends on it (`mcd`, `find_mincut`, …) is a field of `Env`,
a deterministic function of the view. -/
structure RealizedView where
  index : String
  nodes : List Nat
  deriving DecidableEq, Repr

def RealizedView.n (v : RealizedView) : Nat := v.nodes.length

/-- Embeds `IntangibleSubgraph.realize(global_graph)`: same node set, same index. -/
def IntangibleSubgraph.realize (g : IntangibleSubgraph) : RealizedView :=
  { index := g.index, nodes := g.subset }

/-- Embeds `RealizedSubgraph.to_intangible(global_graph)`: current node set, current index. -/
def RealizedView.to_intangible (v : RealizedView) : IntangibleSubgraph :=
  { subset := v.nodes, index := v.index }

/-- The `MincutResult(light_partition, heavy_partition, cut_size)` record. -/
structure MincutRes where
  light_partition : List Nat
  heavy_partition : List Nat
  cut_size : Nat
  deriving DecidableEq, Repr

/-- The deterministic external collaborators of `algorithm_g`:
the global graph's data used by the engine, whether the clusterer is IKC,
and the operations `mcd`, `prune_graph`, `find_mincut`,
`validity_threshold`, `cut_by_mincut`, `cluster_without_singletons`,
`modularity_of`. -/
structure Env where
  globalIndex : String
  globalN : Nat
  globalNodes : List Nat
  isIkc : Bool
  mcd : RealizedView → Nat
  prune : RealizedView → Nat × List Nat
  find_mincut : RealizedView → MincutRes
  validity_threshold : RealizedView → ℚ
  cutByMincut : RealizedView → MincutRes → RealizedView × RealizedView
  cluster_without_singletons : RealizedView → List IntangibleSubgraph
  modularity_of : IntangibleSubgraph → ℚ

/-- The `ClusterTreeNode` (cm.py): treeswift node annotated by
`annotate_tree_node` with label/graph_index/num_nodes/extant, and mutated
with `cut_size`, `validity_threshold` and children.  `nodeSet` is a ghost
field recording the node set of the cluster the tree node was annotated
from (the `graph` argument of `annotate_tree_node`); it is written once at
creation and never mutated. -/
structure TreeNodeData where
  label : String
  graph_index : String
  num_nodes : Nat
  cut_size : Option Nat
  validity_threshold : Option ℚ
  extant : Bool
  children : List Nat
  nodeSet : List Nat
  deriving DecidableEq, Repr

/-- Creation by `ClusterTreeNode()` followed by `annotate_tree_node(node, graph)`. -/
def mkNode (index : String) (n : Nat) (ns : List Nat) : TreeNodeData :=
  { label := index, graph_index := index, num_nodes := n, cut_size := none,
    validity_threshold := none, extant := false, children := [], nodeSet := ns }

/-- In-place mutation of the tree node stored at arena position `i`. -/
def modifyAt (arena : List TreeNodeData) (i : Nat) (f : TreeNodeData → TreeNodeData) :
    List TreeNodeData :=
  match arena[i]? with
  | some nd => arena.set i (f nd)
  | none => arena

/-- treeswift `add_child`: append `c` to the child list of node `parent`. -/
def addChildIdx (arena : List TreeNodeData) (parent c : Nat) : List TreeNodeData :=
  modifyAt arena parent (fun nd => { nd with children := nd.children ++ [c] })

/-- Embeds `update_cid_membership(subgraph, node2cids)`: for every node of the
subgraph, assign the subgraph's index in the label map.  The label map is an
association list with most-recent-first lookup. -/
def stamp (m : List (Nat × String)) (ns : List Nat) (idx : String) :
    List (Nat × String) :=
  ns.foldl (fun acc u => (u, idx) :: acc) m

/-- The engine's mutable state: tree arena (root at position 0),
`node_mapping`, the work `stack`, `ans`, `node2cids`. -/
structure AlgState where
  arena : List TreeNodeData
  node_mapping : List (String × Nat)
  stack : List IntangibleSubgraph
  ans : List IntangibleSubgraph
  node2cids : List (Nat × String)
  deriving DecidableEq, Repr

/-- Which branch of the main loop body an iteration took. -/
inductive Decision where
  | trivialSkip : Decision
  | split : Decision
  | acceptKept : Decision
  | acceptDropped : Decision
  deriving DecidableEq, Repr

/-- cm.py lines 142–167: record `original_mcd`, run the pruner; if it removed
at least one node, set the current tree node's `cut_size` to `original_mcd`,
rename the subgraph to `index + "δ"`, create and attach the δ child, insert
it in `node_mapping`, make it the active node and re-stamp the labels. -/
structure MidState where
  arena : List TreeNodeData
  node_mapping : List (String × Nat)
  labels : List (Nat × String)
  active : Nat
  view : RealizedView
  deriving DecidableEq, Repr

/-- cm.py lines 200–214 (also the init loop at lines 93–97, which has the same
shape): one fresh tree node per subcluster, registered in `node_mapping` and
attached beneath the given parent. -/
def addSubclusterNodes (arena : List TreeNodeData) (nm : List (String × Nat))
    (parent : Nat) (sgs : List IntangibleSubgraph) :
    List TreeNodeData × List (String × Nat) :=
  sgs.foldl
    (fun acc sg =>
      let i := acc.1.length
      let a2 := acc.1 ++ [mkNode sg.index sg.n sg.subset]
      (addChildIdx a2 parent i, (sg.index, i) :: acc.2))
    (arena, nm)

def pruneStep (env : Env) (st : AlgState) (labels1 : List (Nat × String))
    (tnIdx : Nat) (V : RealizedView) : MidState :=
  let original_mcd := env.mcd V
  let pr := env.prune V
  if 0 < pr.1 then
    let arena1 := modifyAt st.arena tnIdx (fun nd => { nd with cut_size := some original_mcd })
    let newIndex := V.index ++ "δ"
    let V2 : RealizedView := { index := newIndex, nodes := pr.2 }
    let childIdx := arena1.length
    let arena2 := arena1 ++ [mkNode newIndex V2.n V2.nodes]
    let arena3 := addChildIdx arena2 tnIdx childIdx
    { arena := arena3, node_mapping := (newIndex, childIdx) :: st.node_mapping,
      labels := stamp labels1 V2.nodes newIndex, active := childIdx, view := V2 }
  else
    { arena := st.arena, node_mapping := st.node_mapping, labels := labels1,
      active := tnIdx, view := V }

/-- The view the decision stage operates on: `J` realized, after pruning and
the δ-renaming when the pruner removed at least one node. -/
def postPruneView (env : Env) (J : IntangibleSubgraph) : RealizedView :=
  if 0 < (env.prune J.realize).1 then
    { index := J.realize.index ++ "δ", nodes := (env.prune J.realize).2 }
  else J.realize

/-- cm.py lines 183–185: record the cut size and the validity threshold on
the active tree node. -/
def decideArena (env : Env) (mid : MidState) : List TreeNodeData :=
  modifyAt mid.arena mid.active (fun nd =>
    { nd with cut_size := some (env.find_mincut mid.view).cut_size,
              validity_threshold := some (env.validity_threshold mid.view) })

/-- cm.py lines 189–214, the split branch: cut by the mincut, create the
two side nodes, recluster both sides, attach one node per subcluster and
extend the stack with the subclusters. -/
def splitState (env : Env) (st : AlgState) (mid : MidState) : AlgState :=
  let res := env.find_mincut mid.view
  let arenaA := decideArena env mid
  let pq := env.cutByMincut mid.view res
  let ia := arenaA.length
  let ib := arenaA.length + 1
  let arenaB := arenaA ++ [mkNode pq.1.index pq.1.n pq.1.nodes,
                           mkNode pq.2.index pq.2.n pq.2.nodes]
  let arenaC := addChildIdx (addChildIdx arenaB mid.active ia) mid.active ib
  let nm1 := (pq.2.index, ib) :: (pq.1.index, ia) :: mid.node_mapping
  let subp1 := env.cluster_without_singletons pq.1
  let subp2 := env.cluster_without_singletons pq.2
  let s1 := addSubclusterNodes arenaC nm1 ia subp1
  let s2 := addSubclusterNodes s1.1 s1.2 ib subp2
  { arena := s2.1, node_mapping := s2.2, stack := st.stack ++ subp1 ++ subp2,
    ans := st.ans, node2cids := mid.labels }

/-- cm.py lines 224–241, the accept branch with the tree node at `i`:
append the candidate to `ans` and mark extant when kept (`keep = true`),
otherwise only mark non-extant. -/
def acceptState (env : Env) (st : AlgState) (mid : MidState) (i : Nat)
    (keep : Bool) : AlgState :=
  { arena := modifyAt (decideArena env mid) i (fun nd => { nd with extant := keep }),
    node_mapping := mid.node_mapping, stack := st.stack,
    ans := if keep then st.ans ++ [mid.view.to_intangible] else st.ans,
    node2cids := mid.labels }

/-- cm.py lines 169–241: compute the mincut and the validity threshold,
record both on the active tree node, then either split (cut ≤ threshold and
cut > 0) or accept, with the IKC modularity guard. -/
def decideStep (env : Env) (st : AlgState) (mid : MidState) :
    Option (AlgState × Decision) :=
  let res := env.find_mincut mid.view
  let thr := env.validity_threshold mid.view
  if (res.cut_size : ℚ) ≤ thr ∧ 0 < res.cut_size then
    some (splitState env st mid, Decision.split)
  else
    let candidate := mid.view.to_intangible
    let mod := env.modularity_of candidate
    if env.isIkc = false ∨ 0 < mod then
      match mid.node_mapping.lookup mid.view.index with
      | none => none
      | some i => some (acceptState env st mid i true, Decision.acceptKept)
    else
      match mid.node_mapping.lookup mid.view.index with
      | none => none
      | some i => some (acceptState env st mid i false, Decision.acceptDropped)

/-- The body of the main loop of `algorithm_g` for one popped cluster `J`
(`st.stack` already holds the remaining stack).  `none` models a run that
aborts on a missing `node_mapping` key. -/
def processGraph (env : Env) (st : AlgState) (J : IntangibleSubgraph) :
    Option (AlgState × Decision) :=
  let labels1 := stamp st.node2cids J.nodes J.index
  if J.n ≤ 1 then
    some ({ st with node2cids := labels1 }, Decision.trivialSkip)
  else
    let V := J.realize
    match st.node_mapping.lookup V.index with
    | none => none
    | some tnIdx => decideStep env st (pruneStep env st labels1 tnIdx V)

/-- The main loop (`while stack:`), fueled.  `stack.pop()` pops the last
element of the Python list. -/
def loopG (env : Env) : Nat → AlgState → Option AlgState
  | 0, st => if st.stack.isEmpty then some st else none
  | fuel + 1, st =>
    match st.stack.getLast? with
    | none => some st
    | some J =>
      match processGraph env { st with stack := st.stack.dropLast } J with
      | none => none
      | some r => loopG env fuel r.1

/-- cm.py lines 89–100: root node for the global graph, one child per
initial cluster (the per-cluster loop has exactly the `addSubclusterNodes`
shape), the stack seeded with the initial clusters. -/
def initState (env : Env) (graphs : List IntangibleSubgraph) : AlgState :=
  let p := addSubclusterNodes [mkNode env.globalIndex env.globalN env.globalNodes] [] 0 graphs
  { arena := p.1, node_mapping := p.2, stack := graphs, ans := [], node2cids := [] }

/-- Embeds `algorithm_g(global_graph, graphs, clusterer, requirement, quiet)`:
returns `(ans, node2cids, tree)`.  The `quiet` flag only silences logging
and has no effect on the computation.  `fuel` bounds the number of loop
iterations; `none` is a run that does not terminate within `fuel` steps (or
aborts on a missing key). -/
def algorithm_g (env : Env) (graphs : List IntangibleSubgraph) (quiet : Bool)
    (fuel : Nat) :
    Option (List IntangibleSubgraph × List (Nat × String) × List TreeNodeData) :=
  match loopG env fuel (initState env graphs) with
  | none => none
  | some st => some (st.ans, st.node2cids, st.arena)

/-! ## The loader of infomap_wrapper.py -/

/-- One `setdefault`/`append` step of the loader: the insertion-ordered
dict `clusters` is represented by the ordered list of its values. -/
def addClusterLine (acc : List IntangibleSubgraph) (node_id : Nat)
    (cluster_id : String) : List IntangibleSubgraph :=
  if acc.any (fun c => c.index = cluster_id) then
    acc.map (fun c =>
      if c.index = cluster_id then { c with subset := c.subset ++ [node_id] } else c)
  else
    acc ++ [{ subset := [node_id], index := cluster_id }]

/-- Embeds `InfomapClusterer.from_existing_clustering(filepath)` (lines 39–48):
each file line contributes a `(node_id, cluster_id)` pair (the trailing
third field is ignored); the pairs are grouped by cluster id into
IntangibleSubgraphs, and only those with `n() > 1` are returned. -/
def from_existing_clustering (lines : List (Nat × String)) :
    List IntangibleSubgraph :=
  (lines.foldl (fun acc p => addClusterLine acc p.1 p.2) []).filter
    (fun v => 1 < v.n)

/-! ## The command runner of source/cmd.py -/

/-- The Python exceptions source/cmd.py mentions. -/
inductive PyExn where
  | fileNotFound (msg : String)
  | calledProcessError (msg : String)
  deriving DecidableEq, Repr

/-- The body of the `try` block of `run`: the `subprocess.run` invocation
is commented out, so the body only emits the `Executing …` log record.
`Except.error` would be a raised exception. -/
def cmdTryBody (cmd_list : List String) (check_errors : Bool) :
    Except PyExn (List String) :=
  Except.ok ["Executing " ++ String.intercalate " " cmd_list]

/-- Embeds `run(cmd_list, check_errors)` of source/cmd.py: run the try body; the
two handlers log and re-raise.  The returned list is the log produced. -/
def cmdRun (cmd_list : List String) (check_errors : Bool) :
    Except PyExn (List String) :=
  match cmdTryBody cmd_list check_errors with
  | Except.ok logs => Except.ok logs
  | Except.error (PyExn.fileNotFound exc) =>
      Except.error (PyExn.fileNotFound
        ("Process failed because the executable could not be found.\n" ++ exc))
  | Except.error (PyExn.calledProcessError exc) =>
      Except.error (PyExn.calledProcessError
        ("Process failed because did not return a successful return code. " ++ exc))

/-! ## The MCL wrapper (mcl_wrapper.py) -/

/-- The fields of a realized subgraph that `MCLClusterer.cluster` reads. -/
structure MclGraphView where
  index : String
  continuous_ids : List (Nat × Nat)
  deriving DecidableEq, Repr

structure MCLClusterer where
  k : Int
  deriving DecidableEq, Repr

/-- Embeds `MCLClusterer.run_mcl` (lines 58–80): the body is `pass`; everything
else is commented out. -/
def MCLClusterer.run_mcl (self : MCLClusterer) (edge_list_path : String)
    (graph : MclGraphView) (output_file : String) : Unit := ()

/-- Embeds `MCLClusterer.cluster` (lines 20–56): computes its local values, calls
`run_mcl`, and falls off the end; every `yield` is commented out, so it is
a plain function returning `None` (modeled as `none`).  The two path
strings stand for the values the `context` collaborator would return. -/
def MCLClusterer.cluster (self : MCLClusterer) (graph : MclGraphView)
    (raw_mcl_clustering_output_filename edge_list_path : String) :
    Option (List IntangibleSubgraph) :=
  let cluster_id := graph.index
  let old_to_new_node_id_mapping := graph.continuous_ids
  let new_to_old_node_id_mapping :=
    old_to_new_node_id_mapping.map (fun p => (p.2, p.1))
  let r := self.run_mcl edge_list_path graph raw_mcl_clustering_output_filename
  none

/-! ## Concrete environments used for witnesses and counterexamples -/

/-- A single edge 0–1 as one initial cluster, threshold 1: the mincut (one
edge, cut size 1) is ≤ the threshold, so the engine splits into singleton
sides; `cluster_without_singletons` drops them and nothing is pushed. -/
def envSplit : Env :=
  { globalIndex := "", globalN := 2, globalNodes := [0, 1], isIkc := false,
    mcd := fun _ => 1, prune := fun v => (0, v.nodes),
    find_mincut := fun _ =>
      { light_partition := [0], heavy_partition := [1], cut_size := 1 },
    validity_threshold := fun _ => 1,
    cutByMincut := fun v r =>
      ({ index := v.index ++ "a", nodes := r.light_partition },
       { index := v.index ++ "b", nodes := r.heavy_partition }),
    cluster_without_singletons := fun _ => [],
    modularity_of := fun _ => 0 }

/-- A well-connected pair: mincut 5 exceeds the threshold 1, so the
cluster is accepted (non-IKC). -/
def envAccept : Env :=
  { globalIndex := "", globalN := 2, globalNodes := [0, 1], isIkc := false,
    mcd := fun _ => 3, prune := fun v => (0, v.nodes),
    find_mincut := fun _ =>
      { light_partition := [0], heavy_partition := [1], cut_size := 5 },
    validity_threshold := fun _ => 1,
    cutByMincut := fun v r =>
      ({ index := v.index ++ "a", nodes := r.light_partition },
       { index := v.index ++ "b", nodes := r.heavy_partition }),
    cluster_without_singletons := fun _ => [],
    modularity_of := fun _ => 0 }

/-- The pruner removes node 0 from the initial 3-node cluster, after which
the pruned remainder is accepted (mincut 3 > threshold 1). -/
def envPrune : Env :=
  { globalIndex := "", globalN := 3, globalNodes := [0, 1, 2], isIkc := false,
    mcd := fun _ => 1,
    prune := fun v => if v.index = "0" then (1, v.nodes.drop 1) else (0, v.nodes),
    find_mincut := fun _ =>
      { light_partition := [1], heavy_partition := [2], cut_size := 3 },
    validity_threshold := fun _ => 1,
    cutByMincut := fun v r =>
      ({ index := v.index ++ "a", nodes := r.light_partition },
       { index := v.index ++ "b", nodes := r.heavy_partition }),
    cluster_without_singletons := fun _ => [],
    modularity_of := fun _ => 0 }

/-- A 4-node cluster split along a cut of size 1 into sides of two nodes
each; each side reclusters into one subcluster covering the side. -/
def envRecluster : Env :=
  { globalIndex := "", globalN := 4, globalNodes := [0, 1, 2, 3], isIkc := false,
    mcd := fun _ => 1, prune := fun v => (0, v.nodes),
    find_mincut := fun _ =>
      { light_partition := [0, 1], heavy_partition := [2, 3], cut_size := 1 },
    validity_threshold := fun _ => 1,
    cutByMincut := fun v r =>
      ({ index := v.index ++ "a", nodes := r.light_partition },
       { index := v.index ++ "b", nodes := r.heavy_partition }),
    cluster_without_singletons := fun v => [{ subset := v.nodes, index := v.index ++ "0" }],
    modularity_of := fun _ => 0 }

/-- An IKC clusterer whose single cluster is well-connected but has
non-positive modularity: the modularity guard drops it. -/
def envIkcDrop : Env :=
  { envAccept with isIkc := true, modularity_of := fun _ => -1 }

/-- The engine state at the moment the single initial cluster `J` has been
popped (the remaining stack is empty). -/
def startState (env : Env) (J : IntangibleSubgraph) : AlgState :=
  { initState env [J] with stack := [] }

def emptyState : AlgState :=
  { arena := [], node_mapping := [], stack := [], ans := [], node2cids := [] }

/-- Unwraps a loop-body result for use in concrete witnesses. -/
def runOr (r : Option (AlgState × Decision)) : AlgState × Decision :=
  r.getD (emptyState, Decision.trivialSkip)

def witJ : IntangibleSubgraph := { subset := [0, 1], index := "0" }

def witJ3 : IntangibleSubgraph := { subset := [0, 1, 2], index := "0" }

def witJ4 : IntangibleSubgraph := { subset := [0, 1, 2, 3], index := "0" }

def witC2res : AlgState × Decision :=
  runOr (processGraph envSplit (startState envSplit witJ) witJ)

def witC3res : AlgState × Decision :=
  runOr (processGraph envAccept (startState envAccept witJ) witJ)

def witC5res : AlgState × Decision :=
  runOr (processGraph envPrune (startState envPrune witJ3) witJ3)

def witC6res : AlgState × Decision :=
  runOr (processGraph envRecluster (startState envRecluster witJ4) witJ4)

/-- A terminating accept run: one cluster, accepted in one iteration. -/
def witC1res : List IntangibleSubgraph × List (Nat × String) × List TreeNodeData :=
  (algorithm_g envAccept [witJ] false 1).getD ([], [], [])

/-- A terminating split run with empty reclusterings: the single edge 0–1
is split into two singleton sides and nothing is pushed back. -/
def witC4res : List IntangibleSubgraph × List (Nat × String) × List TreeNodeData :=
  (algorithm_g envSplit [witJ] false 2).getD ([], [], [])

/-! ## Predicates used to state the claims -/

/-- Every node position of `a` survives into `b` with the same
`graph_index` and the same ghost node set (children, cut sizes and the
extant flag may differ). -/
def ArenaPres (a b : List TreeNodeData) : Prop :=
  ∀ (j : Nat) (nd : TreeNodeData), a[j]? = some nd →
    ∃ nd2 : TreeNodeData, b[j]? = some nd2 ∧ nd2.graph_index = nd.graph_index ∧
      nd2.nodeSet = nd.nodeSet

/-- Every label entry points at the graph_index of some tree node whose
cluster contained the labeled node. -/
def labelsOk (arena : List TreeNodeData) (labels : List (Nat × String)) : Prop :=
  ∀ (u : Nat) (s : String), labels.lookup u = some s →
    ∃ (j : Nat) (nd : TreeNodeData), arena[j]? = some nd ∧
      nd.graph_index = s ∧ u ∈ nd.nodeSet

/-- Every stack entry has a tree node carrying exactly its index and node
set. -/
def stackOk (arena : List TreeNodeData) (stk : List IntangibleSubgraph) : Prop :=
  ∀ J ∈ stk, ∃ (j : Nat) (nd : TreeNodeData), arena[j]? = some nd ∧
    nd.graph_index = J.index ∧ nd.nodeSet = J.subset

/-- The acceptance certificate for a member of `ans`: the decision-time
view `V` whose mincut either exceeded the threshold or was zero, together
with the (possibly trivial) modularity guard. -/
def acceptedOk (env : Env) (C : IntangibleSubgraph) : Prop :=
  ∃ V : RealizedView, C = V.to_intangible ∧
    (env.validity_threshold V < ((env.find_mincut V).cut_size : ℚ) ∨
      (env.find_mincut V).cut_size = 0) ∧
    (env.isIkc = false ∨ 0 < env.modularity_of C)

/-! ## Basic lemmas about the state-manipulation primitives -/

theorem modifyAt_length (a : List TreeNodeData) (i : Nat)
    (f : TreeNodeData → TreeNodeData) : (modifyAt a i f).length = a.length := by
  unfold modifyAt
  cases h : a[i]? with
  | none => rfl
  | some nd => simp [List.length_set]

theorem getElem?_modifyAt_ne (a : List TreeNodeData)
    (f : TreeNodeData → TreeNodeData) {i j : Nat} (h : i ≠ j) :
    (modifyAt a i f)[j]? = a[j]? := by
  unfold modifyAt
  cases hh : a[i]? with
  | none => rfl
  | some nd => exact List.getElem?_set_ne h

theorem getElem?_modifyAt_self (a : List TreeNodeData)
    (f : TreeNodeData → TreeNodeData) {i : Nat} {nd : TreeNodeData}
    (h : a[i]? = some nd) : (modifyAt a i f)[i]? = some (f nd) := by
  have hlt : i < a.length := by
    by_contra hc
    push_neg at hc
    rw [List.getElem?_len_le hc] at h
    cases h
  unfold modifyAt
  rw [h]
  exact List.getElem?_set_eq_of_lt _ hlt

theorem lookup_cons_pair {α β : Type} [DecidableEq α] [BEq α] [LawfulBEq α]
    (m : List (α × β)) (n u : α) (s : β) :
    List.lookup u ((n, s) :: m) = if u = n then some s else List.lookup u m := by
  by_cases h : u = n
  · simp [List.lookup_cons, h]
  · simp [List.lookup_cons, h, beq_false_of_ne h]

theorem lookup_stamp (m : List (Nat × String)) (ns : List Nat) (idx : String)
    (u : Nat) :
    (stamp m ns idx).lookup u = if u ∈ ns then some idx else m.lookup u := by
  induction ns generalizing m with
  | nil => simp [stamp]
  | cons n ns ih =>
    have hstep : stamp m (n :: ns) idx = stamp ((n, idx) :: m) ns idx := rfl
    rw [hstep, ih]
    by_cases h1 : u ∈ ns
    · simp [h1]
    · by_cases h2 : u = n
      · simp [h1, h2, lookup_cons_pair]
      · simp [h1, h2, lookup_cons_pair]

theorem lookup_stamp_isSome (m : List (Nat × String)) (ns : List Nat)
    (idx : String) (u : Nat) (h : (m.lookup u).isSome) :
    ((stamp m ns idx).lookup u).isSome := by
  rw [lookup_stamp]
  by_cases hm : u ∈ ns <;> simp [hm, h]

theorem addSubclusterNodes_cons (a : List TreeNodeData)
    (nm : List (String × Nat)) (p : Nat) (sg : IntangibleSubgraph)
    (sgs : List IntangibleSubgraph) :
    addSubclusterNodes a nm p (sg :: sgs) =
      addSubclusterNodes (addChildIdx (a ++ [mkNode sg.index sg.n sg.subset]) p a.length)
        ((sg.index, a.length) :: nm) p sgs := rfl

theorem addChildIdx_length (a : List TreeNodeData) (p c : Nat) :
    (addChildIdx a p c).length = a.length := modifyAt_length a p _

theorem addSubclusterNodes_length (a : List TreeNodeData)
    (nm : List (String × Nat)) (p : Nat) (sgs : List IntangibleSubgraph) :
    (addSubclusterNodes a nm p sgs).1.length = a.length + sgs.length := by
  induction sgs generalizing a nm with
  | nil => simp [addSubclusterNodes]
  | cons sg sgs ih =>
    rw [addSubclusterNodes_cons, ih]
    rw [addChildIdx_length]
    simp [List.length_append]
    omega

theorem getElem?_addSubclusterNodes_lt (a : List TreeNodeData)
    (nm : List (String × Nat)) (p : Nat) (sgs : List IntangibleSubgraph)
    {j : Nat} (hj : j < a.length) (hne : j ≠ p) :
    (addSubclusterNodes a nm p sgs).1[j]? = a[j]? := by
  induction sgs generalizing a nm with
  | nil => rfl
  | cons sg sgs ih =>
    rw [addSubclusterNodes_cons]
    rw [ih _ _ (by rw [addChildIdx_length]; simp [List.length_append]; omega)]
    unfold addChildIdx
    rw [getElem?_modifyAt_ne _ _ (Ne.symm hne)]
    exact List.getElem?_append_left hj

theorem getElem?_addSubclusterNodes_parent (a : List TreeNodeData)
    (nm : List (String × Nat)) (p : Nat) (sgs : List IntangibleSubgraph)
    {nd : TreeNodeData} (hp : a[p]? = some nd) (hplt : p < a.length) :
    (addSubclusterNodes a nm p sgs).1[p]? =
      some { nd with children := nd.children ++ List.range' a.length sgs.length } := by
  induction sgs generalizing a nm nd with
  | nil =>
    show a[p]? = _
    rw [hp]
    simp
  | cons sg sgs ih =>
    rw [addSubclusterNodes_cons]
    have h1 : (a ++ [mkNode sg.index sg.n sg.subset])[p]? = some nd := by
      rw [List.getElem?_append_left hplt]; exact hp
    have h2 : (addChildIdx (a ++ [mkNode sg.index sg.n sg.subset]) p a.length)[p]? =
        some { nd with children := nd.children ++ [a.length] } :=
      getElem?_modifyAt_self _ _ h1
    have hplt2 : p < (addChildIdx (a ++ [mkNode sg.index sg.n sg.subset]) p a.length).length := by
      rw [addChildIdx_length]; simp [List.length_append]; omega
    rw [ih _ _ h2 hplt2]
    rw [addChildIdx_length]
    simp only [List.length_append, List.length_cons, List.length_nil]
    rw [List.range'_succ]
    simp [List.append_assoc]

theorem getElem?_addSubclusterNodes_new (a : List TreeNodeData)
    (nm : List (String × Nat)) (p : Nat) (sgs : List IntangibleSubgraph)
    (hplt : p < a.length) (k : Nat) :
    (addSubclusterNodes a nm p sgs).1[a.length + k]? =
      (sgs[k]?).map (fun sg => mkNode sg.index sg.n sg.subset) := by
  induction sgs generalizing a nm k with
  | nil =>
    show a[a.length + k]? = _
    rw [List.getElem?_len_le (by omega)]
    rfl
  | cons sg sgs ih =>
    rw [addSubclusterNodes_cons]
    have hlen : (addChildIdx (a ++ [mkNode sg.index sg.n sg.subset]) p a.length).length
        = a.length + 1 := by
      rw [addChildIdx_length]; simp [List.length_append]
    cases k with
    | zero =>
      have h1 : (addChildIdx (a ++ [mkNode sg.index sg.n sg.subset]) p a.length)[a.length]? =
          some (mkNode sg.index sg.n sg.subset) := by
        unfold addChildIdx
        rw [getElem?_modifyAt_ne _ _ (by omega)]
        exact List.getElem?_concat_length _ _
      rw [getElem?_addSubclusterNodes_lt _ _ _ _ (by omega) (by omega)]
      rw [Nat.add_zero, h1]
      simp
    | succ k =>
      have := ih (addChildIdx (a ++ [mkNode sg.index sg.n sg.subset]) p a.length)
        ((sg.index, a.length) :: nm) (by omega) k
      rw [hlen] at this
      rw [show a.length + (k + 1) = a.length + 1 + k by omega]
      rw [this]
      simp

/-! ## Arena evolution preserves each node's identity fields -/

theorem getElem?_lt_of_some {a : List TreeNodeData} {j : Nat}
    {nd : TreeNodeData} (h : a[j]? = some nd) : j < a.length := by
  by_contra hc
  push_neg at hc
  rw [List.getElem?_len_le hc] at h
  cases h

theorem arenaPres_refl (a : List TreeNodeData) : ArenaPres a a := by
  unfold ArenaPres
  exact fun _ nd h => ⟨nd, h, rfl, rfl⟩

theorem arenaPres_trans {a b c : List TreeNodeData}
    (h1 : ArenaPres a b) (h2 : ArenaPres b c) : ArenaPres a c := by
  unfold ArenaPres at h1 h2 ⊢
  intro j nd h
  obtain ⟨nd2, hb, hg, hs⟩ := h1 j nd h
  obtain ⟨nd3, hc, hg2, hs2⟩ := h2 j nd2 hb
  exact ⟨nd3, hc, hg2.trans hg, hs2.trans hs⟩

theorem arenaPres_modifyAt (a : List TreeNodeData) (i : Nat)
    (f : TreeNodeData → TreeNodeData)
    (hf : ∀ nd, (f nd).graph_index = nd.graph_index ∧ (f nd).nodeSet = nd.nodeSet) :
    ArenaPres a (modifyAt a i f) := by
  unfold ArenaPres
  intro j nd h
  by_cases hij : i = j
  · subst hij
    exact ⟨f nd, getElem?_modifyAt_self _ _ h, (hf nd).1, (hf nd).2⟩
  · exact ⟨nd, by rw [getElem?_modifyAt_ne _ _ hij]; exact h, rfl, rfl⟩

theorem arenaPres_addChildIdx (a : List TreeNodeData) (p c : Nat) :
    ArenaPres a (addChildIdx a p c) :=
  arenaPres_modifyAt a p _ (fun _ => ⟨rfl, rfl⟩)

theorem arenaPres_append (a b : List TreeNodeData) : ArenaPres a (a ++ b) := by
  unfold ArenaPres
  intro j nd h
  exact ⟨nd, by rw [List.getElem?_append_left (getElem?_lt_of_some h)]; exact h,
    rfl, rfl⟩

theorem arenaPres_addSubclusterNodes (a : List TreeNodeData)
    (nm : List (String × Nat)) (p : Nat) (sgs : List IntangibleSubgraph) :
    ArenaPres a (addSubclusterNodes a nm p sgs).1 := by
  induction sgs generalizing a nm with
  | nil => exact arenaPres_refl a
  | cons sg sgs ih =>
    rw [addSubclusterNodes_cons]
    exact arenaPres_trans
      (arenaPres_trans (arenaPres_append a [mkNode sg.index sg.n sg.subset])
        (arenaPres_addChildIdx _ p a.length))
      (ih _ _)

/-! ## Characterizations of the stages of the loop body -/

theorem pruneStep_pos (env : Env) (st : AlgState) (labels1 : List (Nat × String))
    (tnIdx : Nat) (V : RealizedView) (h : 0 < (env.prune V).1) :
    pruneStep env st labels1 tnIdx V =
      { arena := addChildIdx
          (modifyAt st.arena tnIdx (fun nd => { nd with cut_size := some (env.mcd V) })
            ++ [mkNode (V.index ++ "δ") (env.prune V).2.length (env.prune V).2])
          tnIdx st.arena.length,
        node_mapping := (V.index ++ "δ", st.arena.length) :: st.node_mapping,
        labels := stamp labels1 (env.prune V).2 (V.index ++ "δ"),
        active := st.arena.length,
        view := { index := V.index ++ "δ", nodes := (env.prune V).2 } } := by
  unfold pruneStep
  rw [if_pos h]
  simp [modifyAt_length, RealizedView.n]

theorem pruneStep_zero (env : Env) (st : AlgState) (labels1 : List (Nat × String))
    (tnIdx : Nat) (V : RealizedView) (h : ¬ 0 < (env.prune V).1) :
    pruneStep env st labels1 tnIdx V =
      { arena := st.arena, node_mapping := st.node_mapping, labels := labels1,
        active := tnIdx, view := V } := by
  unfold pruneStep
  rw [if_neg h]

theorem pruneStep_view (env : Env) (st : AlgState) (labels1 : List (Nat × String))
    (tnIdx : Nat) (J : IntangibleSubgraph) :
    (pruneStep env st labels1 tnIdx J.realize).view = postPruneView env J := by
  unfold pruneStep postPruneView
  by_cases h : 0 < (env.prune J.realize).1
  · rw [if_pos h, if_pos h]
  · rw [if_neg h, if_neg h]

theorem pruneStep_active (env : Env) (st : AlgState) (labels1 : List (Nat × String))
    (tnIdx : Nat) (V : RealizedView) :
    (pruneStep env st labels1 tnIdx V).active =
      if 0 < (env.prune V).1 then st.arena.length else tnIdx := by
  unfold pruneStep
  by_cases h : 0 < (env.prune V).1
  · rw [if_pos h, if_pos h]
    simp [modifyAt_length]
  · rw [if_neg h, if_neg h]

theorem pruneStep_labels (env : Env) (st : AlgState) (labels1 : List (Nat × String))
    (tnIdx : Nat) (V : RealizedView) :
    (pruneStep env st labels1 tnIdx V).labels =
      if 0 < (env.prune V).1
      then stamp labels1 (env.prune V).2 (V.index ++ "δ") else labels1 := by
  unfold pruneStep
  by_cases h : 0 < (env.prune V).1
  · rw [if_pos h, if_pos h]
  · rw [if_neg h, if_neg h]

theorem pruneStep_node_mapping (env : Env) (st : AlgState)
    (labels1 : List (Nat × String)) (tnIdx : Nat) (V : RealizedView) :
    (pruneStep env st labels1 tnIdx V).node_mapping =
      if 0 < (env.prune V).1
      then (V.index ++ "δ", st.arena.length) :: st.node_mapping
      else st.node_mapping := by
  unfold pruneStep
  by_cases h : 0 < (env.prune V).1
  · rw [if_pos h, if_pos h]
    simp [modifyAt_length]
  · rw [if_neg h, if_neg h]

theorem arenaPres_pruneStep (env : Env) (st : AlgState)
    (labels1 : List (Nat × String)) (tnIdx : Nat) (V : RealizedView) :
    ArenaPres st.arena (pruneStep env st labels1 tnIdx V).arena := by
  by_cases h : 0 < (env.prune V).1
  · rw [pruneStep_pos env st labels1 tnIdx V h]
    show ArenaPres st.arena (addChildIdx _ tnIdx st.arena.length)
    apply arenaPres_trans _ (arenaPres_addChildIdx _ tnIdx st.arena.length)
    apply arenaPres_trans _ (arenaPres_append _ _)
    exact arenaPres_modifyAt st.arena tnIdx _ (fun _ => ⟨rfl, rfl⟩)
  · rw [pruneStep_zero env st labels1 tnIdx V h]
    exact arenaPres_refl st.arena

/-! ## Branch characterizations of the decision stage -/

theorem decideStep_split_eq (env : Env) (st : AlgState) (mid : MidState)
    (hc : ((env.find_mincut mid.view).cut_size : ℚ) ≤ env.validity_threshold mid.view ∧
      0 < (env.find_mincut mid.view).cut_size) :
    decideStep env st mid = some (splitState env st mid, Decision.split) := by
  simp only [decideStep]
  rw [if_pos hc]

theorem decideStep_kept_eq (env : Env) (st : AlgState) (mid : MidState) (i : Nat)
    (hc : ¬ (((env.find_mincut mid.view).cut_size : ℚ) ≤ env.validity_threshold mid.view ∧
      0 < (env.find_mincut mid.view).cut_size))
    (hg : env.isIkc = false ∨ 0 < env.modularity_of mid.view.to_intangible)
    (hlk : mid.node_mapping.lookup mid.view.index = some i) :
    decideStep env st mid = some (acceptState env st mid i true, Decision.acceptKept) := by
  simp only [decideStep]
  rw [if_neg hc, if_pos hg, hlk]

theorem decideStep_dropped_eq (env : Env) (st : AlgState) (mid : MidState) (i : Nat)
    (hc : ¬ (((env.find_mincut mid.view).cut_size : ℚ) ≤ env.validity_threshold mid.view ∧
      0 < (env.find_mincut mid.view).cut_size))
    (hg : ¬ (env.isIkc = false ∨ 0 < env.modularity_of mid.view.to_intangible))
    (hlk : mid.node_mapping.lookup mid.view.index = some i) :
    decideStep env st mid = some (acceptState env st mid i false, Decision.acceptDropped) := by
  simp only [decideStep]
  rw [if_neg hc, if_neg hg, hlk]

theorem decideStep_some_cases (env : Env) (st : AlgState) (mid : MidState)
    (st' : AlgState) (d : Decision)
    (h : decideStep env st mid = some (st', d)) :
    ((((env.find_mincut mid.view).cut_size : ℚ) ≤ env.validity_threshold mid.view ∧
        0 < (env.find_mincut mid.view).cut_size) ∧
      st' = splitState env st mid ∧ d = Decision.split) ∨
    (¬ (((env.find_mincut mid.view).cut_size : ℚ) ≤ env.validity_threshold mid.view ∧
        0 < (env.find_mincut mid.view).cut_size) ∧
      (env.isIkc = false ∨ 0 < env.modularity_of mid.view.to_intangible) ∧
      ∃ i : Nat, mid.node_mapping.lookup mid.view.index = some i ∧
        st' = acceptState env st mid i true ∧ d = Decision.acceptKept) ∨
    (¬ (((env.find_mincut mid.view).cut_size : ℚ) ≤ env.validity_threshold mid.view ∧
        0 < (env.find_mincut mid.view).cut_size) ∧
      ¬ (env.isIkc = false ∨ 0 < env.modularity_of mid.view.to_intangible) ∧
      ∃ i : Nat, mid.node_mapping.lookup mid.view.index = some i ∧
        st' = acceptState env st mid i false ∧ d = Decision.acceptDropped) := by
  by_cases hc : ((env.find_mincut mid.view).cut_size : ℚ) ≤ env.validity_threshold mid.view ∧
      0 < (env.find_mincut mid.view).cut_size
  · left
    rw [decideStep_split_eq env st mid hc] at h
    simp only [Option.some.injEq, Prod.mk.injEq] at h
    exact ⟨hc, h.1.symm, h.2.symm⟩
  · by_cases hg : env.isIkc = false ∨ 0 < env.modularity_of mid.view.to_intangible
    · right; left
      cases hlk : mid.node_mapping.lookup mid.view.index with
      | none =>
        simp only [decideStep] at h
        rw [if_neg hc, if_pos hg, hlk] at h
        cases h
      | some i =>
        rw [decideStep_kept_eq env st mid i hc hg hlk] at h
        simp only [Option.some.injEq, Prod.mk.injEq] at h
        exact ⟨hc, hg, i, rfl, h.1.symm, h.2.symm⟩
    · right; right
      cases hlk : mid.node_mapping.lookup mid.view.index with
      | none =>
        simp only [decideStep] at h
        rw [if_neg hc, if_neg hg, hlk] at h
        cases h
      | some i =>
        rw [decideStep_dropped_eq env st mid i hc hg hlk] at h
        simp only [Option.some.injEq, Prod.mk.injEq] at h
        exact ⟨hc, hg, i, rfl, h.1.symm, h.2.symm⟩

/-! ## Unfolding the loop body -/

theorem realize_index (J : IntangibleSubgraph) : J.realize.index = J.index := rfl

theorem realize_nodes (J : IntangibleSubgraph) : J.realize.nodes = J.subset := rfl

theorem processGraph_trivial_eq (env : Env) (st : AlgState) (J : IntangibleSubgraph)
    (h : J.n ≤ 1) :
    processGraph env st J =
      some ({ st with node2cids := stamp st.node2cids J.nodes J.index },
        Decision.trivialSkip) := by
  simp only [processGraph]
  rw [if_pos h]

theorem processGraph_nontrivial_eq (env : Env) (st : AlgState)
    (J : IntangibleSubgraph) (tnIdx : Nat) (h : ¬ J.n ≤ 1)
    (hlk : st.node_mapping.lookup J.index = some tnIdx) :
    processGraph env st J =
      decideStep env st
        (pruneStep env st (stamp st.node2cids J.nodes J.index) tnIdx J.realize) := by
  simp only [processGraph]
  rw [if_neg h, realize_index, hlk]

theorem processGraph_none_of_lookup_none (env : Env) (st : AlgState)
    (J : IntangibleSubgraph) (h : ¬ J.n ≤ 1)
    (hlk : st.node_mapping.lookup J.index = none) :
    processGraph env st J = none := by
  simp only [processGraph]
  rw [if_neg h, realize_index, hlk]

/-! ## Claim C2 -/

/-- Claim C2: in every iteration of the engine's main loop (each invocation
of the loop body on a popped cluster with more than one node), with the
mincut and threshold computed on the post-pruning view, the cluster is
split if and only if `0 < cut_size` and `cut_size ≤ validity_threshold`
(an equal-to-threshold cut splits), and a disconnected cluster
(`cut_size = 0`) takes the accept branch. -/
theorem processGraph_split_iff (env : Env) (st : AlgState) (J : IntangibleSubgraph)
    (st' : AlgState) (d : Decision) (hn : 1 < J.n)
    (h : processGraph env st J = some (st', d)) :
    (d = Decision.split ↔
      (0 < (env.find_mincut (postPruneView env J)).cut_size ∧
        ((env.find_mincut (postPruneView env J)).cut_size : ℚ) ≤
          env.validity_threshold (postPruneView env J))) ∧
    ((env.find_mincut (postPruneView env J)).cut_size = 0 →
      d = Decision.acceptKept ∨ d = Decision.acceptDropped) := by
  have hn2 : ¬ J.n ≤ 1 := by omega
  cases hlk : st.node_mapping.lookup J.index with
  | none =>
    rw [processGraph_none_of_lookup_none env st J hn2 hlk] at h
    cases h
  | some tnIdx =>
    rw [processGraph_nontrivial_eq env st J tnIdx hn2 hlk] at h
    have hview : (pruneStep env st (stamp st.node2cids J.nodes J.index) tnIdx J.realize).view
        = postPruneView env J := pruneStep_view env st _ tnIdx J
    rcases decideStep_some_cases env st _ st' d h with
      ⟨hc, _, hd⟩ | ⟨hc, hg, i, hlk2, hst, hd⟩ | ⟨hc, hg, i, hlk2, hst, hd⟩
    · subst hd
      rw [hview] at hc
      refine ⟨⟨fun _ => ⟨hc.2, hc.1⟩, fun _ => rfl⟩, fun h0 => ?_⟩
      exact absurd h0 (by omega)
    · subst hd
      rw [hview] at hc
      refine ⟨⟨fun hq => absurd hq (by decide), fun hrhs => absurd ⟨hrhs.2, hrhs.1⟩ hc⟩,
        fun _ => Or.inl rfl⟩
    · subst hd
      rw [hview] at hc
      refine ⟨⟨fun hq => absurd hq (by decide), fun hrhs => absurd ⟨hrhs.2, hrhs.1⟩ hc⟩,
        fun _ => Or.inr rfl⟩

theorem processGraph_split_iff_witness :
    1 < witJ.n ∧
    ((witC2res.2 = Decision.split ↔
      (0 < (envSplit.find_mincut (postPruneView envSplit witJ)).cut_size ∧
        ((envSplit.find_mincut (postPruneView envSplit witJ)).cut_size : ℚ) ≤
          envSplit.validity_threshold (postPruneView envSplit witJ))) ∧
     ((envSplit.find_mincut (postPruneView envSplit witJ)).cut_size = 0 →
       witC2res.2 = Decision.acceptKept ∨ witC2res.2 = Decision.acceptDropped)) :=
  ⟨by decide, processGraph_split_iff envSplit (startState envSplit witJ) witJ
      witC2res.1 witC2res.2 (by decide) (by decide)⟩

/-! ## The active tree node through the decision stage -/

theorem decideArena_length (env : Env) (mid : MidState) :
    (decideArena env mid).length = mid.arena.length :=
  modifyAt_length _ _ _

theorem lookup_cons_self (m : List (String × Nat)) (k : String) (v : Nat) :
    List.lookup k ((k, v) :: m) = some v := by
  rw [lookup_cons_pair]
  simp

theorem pruneStep_lookup_active (env : Env) (st : AlgState)
    (labels1 : List (Nat × String)) (tnIdx : Nat) (J : IntangibleSubgraph)
    (hlk : st.node_mapping.lookup J.index = some tnIdx) :
    (pruneStep env st labels1 tnIdx J.realize).node_mapping.lookup
        (pruneStep env st labels1 tnIdx J.realize).view.index =
      some (pruneStep env st labels1 tnIdx J.realize).active := by
  by_cases hp : 0 < (env.prune J.realize).1
  · rw [pruneStep_pos env st labels1 tnIdx J.realize hp]
    exact lookup_cons_self _ _ _
  · rw [pruneStep_zero env st labels1 tnIdx J.realize hp]
    rw [realize_index]
    exact hlk

theorem pruneStep_arena_active_pos (env : Env) (st : AlgState)
    (labels1 : List (Nat × String)) (tnIdx : Nat) (V : RealizedView)
    (htn : tnIdx < st.arena.length) (hp : 0 < (env.prune V).1) :
    (pruneStep env st labels1 tnIdx V).arena[st.arena.length]? =
      some (mkNode (V.index ++ "δ") (env.prune V).2.length (env.prune V).2) := by
  rw [pruneStep_pos env st labels1 tnIdx V hp]
  show (addChildIdx _ tnIdx st.arena.length)[st.arena.length]? = _
  unfold addChildIdx
  rw [getElem?_modifyAt_ne _ _ (by omega)]
  have hlen : (modifyAt st.arena tnIdx
      (fun nd => { nd with cut_size := some (env.mcd V) })).length = st.arena.length :=
    modifyAt_length _ _ _
  rw [show st.arena.length = (modifyAt st.arena tnIdx
      (fun nd => { nd with cut_size := some (env.mcd V) })).length from hlen.symm]
  exact List.getElem?_concat_length _ _

theorem pruneStep_arena_tnIdx_pos (env : Env) (st : AlgState)
    (labels1 : List (Nat × String)) (tnIdx : Nat) (V : RealizedView)
    {nd0 : TreeNodeData} (h0 : st.arena[tnIdx]? = some nd0)
    (hp : 0 < (env.prune V).1) :
    (pruneStep env st labels1 tnIdx V).arena[tnIdx]? =
      some { nd0 with cut_size := some (env.mcd V),
                      children := nd0.children ++ [st.arena.length] } := by
  have htn : tnIdx < st.arena.length := getElem?_lt_of_some h0
  rw [pruneStep_pos env st labels1 tnIdx V hp]
  show (addChildIdx _ tnIdx st.arena.length)[tnIdx]? = _
  unfold addChildIdx
  have h1 : (modifyAt st.arena tnIdx
      (fun nd => { nd with cut_size := some (env.mcd V) }))[tnIdx]? =
      some { nd0 with cut_size := some (env.mcd V) } := getElem?_modifyAt_self _ _ h0
  have h2 : ((modifyAt st.arena tnIdx
      (fun nd => { nd with cut_size := some (env.mcd V) }))
      ++ [mkNode (V.index ++ "δ") (env.prune V).2.length (env.prune V).2])[tnIdx]? =
      some { nd0 with cut_size := some (env.mcd V) } := by
    rw [List.getElem?_append_left (by rw [modifyAt_length]; omega)]
    exact h1
  rw [getElem?_modifyAt_self _ _ h2]

theorem pruneStep_arena_active_some (env : Env) (st : AlgState)
    (labels1 : List (Nat × String)) (tnIdx : Nat) (J : IntangibleSubgraph)
    (htn : tnIdx < st.arena.length) :
    ∃ ndMid : TreeNodeData,
      (pruneStep env st labels1 tnIdx J.realize).arena[(pruneStep env st labels1
          tnIdx J.realize).active]? = some ndMid := by
  by_cases hp : 0 < (env.prune J.realize).1
  · refine ⟨mkNode (J.realize.index ++ "δ") (env.prune J.realize).2.length
      (env.prune J.realize).2, ?_⟩
    rw [pruneStep_active]
    rw [if_pos hp]
    exact pruneStep_arena_active_pos env st labels1 tnIdx J.realize htn hp
  · rw [pruneStep_zero env st labels1 tnIdx J.realize hp]
    exact ⟨st.arena[tnIdx], by rw [List.getElem?_eq_getElem htn]⟩

theorem getElem?_addTwoChildren (a : List TreeNodeData) (act : Nat)
    (x y : TreeNodeData) {j : Nat} (hj : j < a.length) (hne : j ≠ act) :
    (addChildIdx (addChildIdx (a ++ [x, y]) act a.length) act (a.length + 1))[j]? =
      a[j]? := by
  unfold addChildIdx
  rw [getElem?_modifyAt_ne _ _ (fun he => hne he.symm),
      getElem?_modifyAt_ne _ _ (fun he => hne he.symm)]
  exact List.getElem?_append_left hj

theorem addTwoChildren_length (a : List TreeNodeData) (act : Nat)
    (x y : TreeNodeData) :
    (addChildIdx (addChildIdx (a ++ [x, y]) act a.length) act (a.length + 1)).length =
      a.length + 2 := by
  rw [addChildIdx_length, addChildIdx_length]
  simp

theorem getElem?_addTwoChildren_self (a : List TreeNodeData) (act : Nat)
    (x y : TreeNodeData) {nd : TreeNodeData} (h : a[act]? = some nd) :
    (addChildIdx (addChildIdx (a ++ [x, y]) act a.length) act (a.length + 1))[act]? =
      some { nd with children := (nd.children ++ [a.length]) ++ [a.length + 1] } := by
  unfold addChildIdx
  have h1 : (a ++ [x, y])[act]? = some nd := by
    rw [List.getElem?_append_left (getElem?_lt_of_some h)]
    exact h
  have h2 := getElem?_modifyAt_self (a ++ [x, y])
    (fun nd => { nd with children := nd.children ++ [a.length] }) h1
  exact getElem?_modifyAt_self _ _ h2

theorem splitState_arena_preserves (env : Env) (st : AlgState) (mid : MidState)
    {j : Nat} (hj : j < mid.arena.length) (hne : j ≠ mid.active) :
    (splitState env st mid).arena[j]? = mid.arena[j]? := by
  have hAlen : (decideArena env mid).length = mid.arena.length := decideArena_length env mid
  have hA : (decideArena env mid)[j]? = mid.arena[j]? := by
    unfold decideArena
    exact getElem?_modifyAt_ne _ _ (fun he => hne he.symm)
  simp only [splitState]
  rw [getElem?_addSubclusterNodes_lt _ _ _ _
    (by rw [addSubclusterNodes_length, addTwoChildren_length]; omega)
    (by omega)]
  rw [getElem?_addSubclusterNodes_lt _ _ _ _
    (by rw [addTwoChildren_length]; omega)
    (by omega)]
  rw [getElem?_addTwoChildren _ _ _ _ (by omega) hne]
  exact hA

theorem decideStep_preserves_lt (env : Env) (st : AlgState) (mid : MidState)
    (st' : AlgState) (d : Decision)
    (hi : mid.node_mapping.lookup mid.view.index = some mid.active)
    (h : decideStep env st mid = some (st', d))
    {j : Nat} (hj : j < mid.arena.length) (hne : j ≠ mid.active) :
    st'.arena[j]? = mid.arena[j]? := by
  have hA : (decideArena env mid)[j]? = mid.arena[j]? := by
    unfold decideArena
    exact getElem?_modifyAt_ne _ _ (fun he => hne he.symm)
  rcases decideStep_some_cases env st mid st' d h with
    ⟨hc, hst, _⟩ | ⟨hc, hg, i, hlk2, hst, _⟩ | ⟨hc, hg, i, hlk2, hst, _⟩
  · subst hst
    exact splitState_arena_preserves env st mid hj hne
  · rw [hi] at hlk2
    obtain rfl : mid.active = i := Option.some.inj hlk2
    subst hst
    simp only [acceptState]
    rw [getElem?_modifyAt_ne _ _ (fun he => hne he.symm)]
    exact hA
  · rw [hi] at hlk2
    obtain rfl : mid.active = i := Option.some.inj hlk2
    subst hst
    simp only [acceptState]
    rw [getElem?_modifyAt_ne _ _ (fun he => hne he.symm)]
    exact hA

theorem decideStep_arena_at_active (env : Env) (st : AlgState) (mid : MidState)
    (st' : AlgState) (d : Decision) (ndMid : TreeNodeData)
    (hi : mid.node_mapping.lookup mid.view.index = some mid.active)
    (hMid : mid.arena[mid.active]? = some ndMid)
    (h : decideStep env st mid = some (st', d)) :
    ∃ nd : TreeNodeData, st'.arena[mid.active]? = some nd ∧
      nd.cut_size = some (env.find_mincut mid.view).cut_size ∧
      nd.validity_threshold = some (env.validity_threshold mid.view) ∧
      nd.graph_index = ndMid.graph_index ∧ nd.nodeSet = ndMid.nodeSet ∧
      nd.num_nodes = ndMid.num_nodes ∧ nd.label = ndMid.label ∧
      (d = Decision.acceptKept → nd.extant = true) ∧
      (d = Decision.acceptDropped → nd.extant = false) ∧
      (d = Decision.split →
        nd.children = ndMid.children ++ [mid.arena.length, mid.arena.length + 1] ∧
        nd.extant = ndMid.extant) := by
  have hact : mid.active < mid.arena.length := getElem?_lt_of_some hMid
  have hAlen : (decideArena env mid).length = mid.arena.length := decideArena_length env mid
  have hAval : (decideArena env mid)[mid.active]? =
      some { ndMid with
              cut_size := some (env.find_mincut mid.view).cut_size,
              validity_threshold := some (env.validity_threshold mid.view) } := by
    unfold decideArena
    exact getElem?_modifyAt_self _ _ hMid
  rcases decideStep_some_cases env st mid st' d h with
    ⟨hc, hst, hd⟩ | ⟨hc, hg, i, hlk2, hst, hd⟩ | ⟨hc, hg, i, hlk2, hst, hd⟩
  · subst hst
    subst hd
    refine ⟨{ ndMid with
        cut_size := some (env.find_mincut mid.view).cut_size,
        validity_threshold := some (env.validity_threshold mid.view),
        children := (ndMid.children ++ [(decideArena env mid).length])
          ++ [(decideArena env mid).length + 1] }, ?_, rfl, rfl, rfl, rfl, rfl, rfl,
      fun hq => absurd hq (by decide), fun hq => absurd hq (by decide),
      fun _ => ⟨?_, rfl⟩⟩
    · simp only [splitState]
      rw [getElem?_addSubclusterNodes_lt _ _ _ _
        (by rw [addSubclusterNodes_length, addTwoChildren_length]; omega)
        (by omega)]
      rw [getElem?_addSubclusterNodes_lt _ _ _ _
        (by rw [addTwoChildren_length]; omega)
        (by omega)]
      exact getElem?_addTwoChildren_self (decideArena env mid) mid.active _ _ hAval
    · rw [hAlen]
      simp
  · rw [hi] at hlk2
    obtain rfl : mid.active = i := Option.some.inj hlk2
    subst hst
    subst hd
    refine ⟨{ ndMid with
        cut_size := some (env.find_mincut mid.view).cut_size,
        validity_threshold := some (env.validity_threshold mid.view),
        extant := true }, ?_, rfl, rfl, rfl, rfl, rfl, rfl,
      fun _ => rfl, fun hq => absurd hq (by decide),
      fun hq => absurd hq (by decide)⟩
    simp only [acceptState]
    exact getElem?_modifyAt_self _ _ hAval
  · rw [hi] at hlk2
    obtain rfl : mid.active = i := Option.some.inj hlk2
    subst hst
    subst hd
    refine ⟨{ ndMid with
        cut_size := some (env.find_mincut mid.view).cut_size,
        validity_threshold := some (env.validity_threshold mid.view),
        extant := false }, ?_, rfl, rfl, rfl, rfl, rfl, rfl,
      fun hq => absurd hq (by decide), fun _ => rfl,
      fun hq => absurd hq (by decide)⟩
    simp only [acceptState]
    exact getElem?_modifyAt_self _ _ hAval

/-! ## Claim C3 -/

/-- Claim C3: whenever the accept branch is taken (the split condition
fails on the post-pruning view): if the clusterer is IKC and the
modularity of the candidate over the global graph is ≤ 0, the active tree
node is marked `extant = false` and the cluster is not appended to `ans`;
otherwise (non-IKC or positive modularity) the candidate is appended to
`ans` and the active tree node is marked `extant = true`. -/
theorem processGraph_accept_spec (env : Env) (st : AlgState)
    (J : IntangibleSubgraph) (st' : AlgState) (d : Decision) (tnIdx : Nat)
    (hn : 1 < J.n)
    (hlk : st.node_mapping.lookup J.index = some tnIdx)
    (htn : tnIdx < st.arena.length)
    (hacc : ¬ (((env.find_mincut (postPruneView env J)).cut_size : ℚ) ≤
        env.validity_threshold (postPruneView env J) ∧
        0 < (env.find_mincut (postPruneView env J)).cut_size))
    (h : processGraph env st J = some (st', d)) :
    (env.isIkc = true ∧
        env.modularity_of (postPruneView env J).to_intangible ≤ 0 →
      d = Decision.acceptDropped ∧ st'.ans = st.ans ∧
      ∃ nd : TreeNodeData,
        st'.arena[if 0 < (env.prune J.realize).1 then st.arena.length else tnIdx]? =
          some nd ∧ nd.extant = false) ∧
    (env.isIkc = false ∨
        0 < env.modularity_of (postPruneView env J).to_intangible →
      d = Decision.acceptKept ∧
      st'.ans = st.ans ++ [(postPruneView env J).to_intangible] ∧
      ∃ nd : TreeNodeData,
        st'.arena[if 0 < (env.prune J.realize).1 then st.arena.length else tnIdx]? =
          some nd ∧ nd.extant = true) := by
  have hn2 : ¬ J.n ≤ 1 := by omega
  rw [processGraph_nontrivial_eq env st J tnIdx hn2 hlk] at h
  have hview : (pruneStep env st (stamp st.node2cids J.nodes J.index) tnIdx
      J.realize).view = postPruneView env J :=
    pruneStep_view env st _ tnIdx J
  have hactive : (pruneStep env st (stamp st.node2cids J.nodes J.index) tnIdx
      J.realize).active =
      if 0 < (env.prune J.realize).1 then st.arena.length else tnIdx :=
    pruneStep_active env st _ tnIdx J.realize
  have hi := pruneStep_lookup_active env st (stamp st.node2cids J.nodes J.index)
    tnIdx J hlk
  obtain ⟨ndMid, hMid⟩ := pruneStep_arena_active_some env st
    (stamp st.node2cids J.nodes J.index) tnIdx J htn
  obtain ⟨nd, hnd, _, _, _, _, _, _, hkept, hdropped, _⟩ :=
    decideStep_arena_at_active env st _ st' d ndMid hi hMid h
  rcases decideStep_some_cases env st _ st' d h with
    ⟨hc, _, hd⟩ | ⟨hc, hg, i, _, hst, hd⟩ | ⟨hc, hg, i, _, hst, hd⟩
  · rw [hview] at hc
    exact absurd hc hacc
  · rw [hview] at hg
    constructor
    · rintro ⟨hik, hmod⟩
      rcases hg with hg | hg
      · rw [hik] at hg
        exact absurd hg (by decide)
      · exact absurd hg (not_lt.mpr hmod)
    · intro _
      refine ⟨hd, ?_, nd, ?_, hkept hd⟩
      · subst hst
        simp [acceptState, hview]
      · rw [← hactive]
        exact hnd
  · rw [hview] at hg
    constructor
    · intro _
      refine ⟨hd, ?_, nd, ?_, hdropped hd⟩
      · subst hst
        simp [acceptState]
      · rw [← hactive]
        exact hnd
    · intro hg2
      exact absurd hg2 hg

theorem processGraph_accept_spec_witness :
    (envAccept.isIkc = true ∧
        envAccept.modularity_of (postPruneView envAccept witJ).to_intangible ≤ 0 →
      witC3res.2 = Decision.acceptDropped ∧
      witC3res.1.ans = (startState envAccept witJ).ans ∧
      ∃ nd : TreeNodeData,
        witC3res.1.arena[if 0 < (envAccept.prune witJ.realize).1 then
          (startState envAccept witJ).arena.length else 1]? = some nd ∧
        nd.extant = false) ∧
    (envAccept.isIkc = false ∨
        0 < envAccept.modularity_of (postPruneView envAccept witJ).to_intangible →
      witC3res.2 = Decision.acceptKept ∧
      witC3res.1.ans = (startState envAccept witJ).ans ++
        [(postPruneView envAccept witJ).to_intangible] ∧
      ∃ nd : TreeNodeData,
        witC3res.1.arena[if 0 < (envAccept.prune witJ.realize).1 then
          (startState envAccept witJ).arena.length else 1]? = some nd ∧
        nd.extant = true) :=
  processGraph_accept_spec envAccept (startState envAccept witJ) witJ
    witC3res.1 witC3res.2 1 (by decide) (by decide) (by decide) (by decide)
    (by decide)

/-! ## State projections of the decision stage -/

theorem pruneStep_length_pos (env : Env) (st : AlgState)
    (labels1 : List (Nat × String)) (tnIdx : Nat) (V : RealizedView)
    (hp : 0 < (env.prune V).1) :
    (pruneStep env st labels1 tnIdx V).arena.length = st.arena.length + 1 := by
  rw [pruneStep_pos env st labels1 tnIdx V hp]
  show (addChildIdx _ tnIdx st.arena.length).length = _
  rw [addChildIdx_length]
  simp [modifyAt_length]

theorem decideStep_labels (env : Env) (st : AlgState) (mid : MidState)
    (st' : AlgState) (d : Decision) (h : decideStep env st mid = some (st', d)) :
    st'.node2cids = mid.labels := by
  rcases decideStep_some_cases env st mid st' d h with
    ⟨_, hst, _⟩ | ⟨_, _, i, _, hst, _⟩ | ⟨_, _, i, _, hst, _⟩ <;> subst hst <;> rfl

theorem decideStep_ans_cases (env : Env) (st : AlgState) (mid : MidState)
    (st' : AlgState) (d : Decision) (h : decideStep env st mid = some (st', d)) :
    st'.ans = st.ans ∨
    (st'.ans = st.ans ++ [mid.view.to_intangible] ∧
      ¬ (((env.find_mincut mid.view).cut_size : ℚ) ≤ env.validity_threshold mid.view ∧
        0 < (env.find_mincut mid.view).cut_size) ∧
      (env.isIkc = false ∨ 0 < env.modularity_of mid.view.to_intangible)) := by
  rcases decideStep_some_cases env st mid st' d h with
    ⟨_, hst, _⟩ | ⟨hc, hg, i, _, hst, _⟩ | ⟨_, _, i, _, hst, _⟩
  · subst hst
    left
    rfl
  · subst hst
    right
    exact ⟨rfl, hc, hg⟩
  · subst hst
    left
    rfl

theorem decideStep_stack_cases (env : Env) (st : AlgState) (mid : MidState)
    (st' : AlgState) (d : Decision) (h : decideStep env st mid = some (st', d)) :
    (d = Decision.split ∧
      st'.stack = st.stack ++
        env.cluster_without_singletons
          (env.cutByMincut mid.view (env.find_mincut mid.view)).1 ++
        env.cluster_without_singletons
          (env.cutByMincut mid.view (env.find_mincut mid.view)).2) ∨
    (d ≠ Decision.split ∧ st'.stack = st.stack) := by
  rcases decideStep_some_cases env st mid st' d h with
    ⟨_, hst, hd⟩ | ⟨_, _, i, _, hst, hd⟩ | ⟨_, _, i, _, hst, hd⟩
  · subst hst
    subst hd
    left
    exact ⟨rfl, rfl⟩
  · subst hst
    subst hd
    right
    exact ⟨by decide, rfl⟩
  · subst hst
    subst hd
    right
    exact ⟨by decide, rfl⟩

/-! ## Claim C5 -/

/-- Claim C5: when the pruner removes at least one node from the popped
cluster `J`, the engine sets `cut_size` on `J`'s tree node to the
pre-pruning minimum induced degree, attaches exactly one new child — the δ
node, indexed `J.index ++ "δ"`, carrying the pruned node set — which
becomes the active node and carries the job's decision data (`cut_size`
and `validity_threshold` of the subsequent mincut), and the surviving
nodes' labels are re-stamped with the δ index. -/
theorem processGraph_prune_spec (env : Env) (st : AlgState)
    (J : IntangibleSubgraph) (st' : AlgState) (d : Decision) (tnIdx : Nat)
    (nd0 : TreeNodeData)
    (hn : 1 < J.n)
    (hlk : st.node_mapping.lookup J.index = some tnIdx)
    (h0 : st.arena[tnIdx]? = some nd0)
    (hp : 0 < (env.prune J.realize).1)
    (h : processGraph env st J = some (st', d)) :
    (∃ ndP : TreeNodeData, st'.arena[tnIdx]? = some ndP ∧
      ndP.cut_size = some (env.mcd J.realize) ∧
      ndP.children = nd0.children ++ [st.arena.length]) ∧
    (∃ ndD : TreeNodeData, st'.arena[st.arena.length]? = some ndD ∧
      ndD.graph_index = J.index ++ "δ" ∧
      ndD.label = J.index ++ "δ" ∧
      ndD.num_nodes = (env.prune J.realize).2.length ∧
      ndD.nodeSet = (env.prune J.realize).2 ∧
      ndD.cut_size = some (env.find_mincut (postPruneView env J)).cut_size ∧
      ndD.validity_threshold = some (env.validity_threshold (postPruneView env J))) ∧
    (∀ u ∈ (env.prune J.realize).2,
      st'.node2cids.lookup u = some (J.index ++ "δ")) := by
  have hn2 : ¬ J.n ≤ 1 := by omega
  have htn : tnIdx < st.arena.length := getElem?_lt_of_some h0
  rw [processGraph_nontrivial_eq env st J tnIdx hn2 hlk] at h
  have hview : (pruneStep env st (stamp st.node2cids J.nodes J.index) tnIdx
      J.realize).view = postPruneView env J :=
    pruneStep_view env st _ tnIdx J
  have hactive : (pruneStep env st (stamp st.node2cids J.nodes J.index) tnIdx
      J.realize).active = st.arena.length := by
    rw [pruneStep_active]
    rw [if_pos hp]
  have hlen : (pruneStep env st (stamp st.node2cids J.nodes J.index) tnIdx
      J.realize).arena.length = st.arena.length + 1 :=
    pruneStep_length_pos env st _ tnIdx J.realize hp
  have hi := pruneStep_lookup_active env st (stamp st.node2cids J.nodes J.index)
    tnIdx J hlk
  have htnval := pruneStep_arena_tnIdx_pos env st
    (stamp st.node2cids J.nodes J.index) tnIdx J.realize h0 hp
  have hδ : (pruneStep env st (stamp st.node2cids J.nodes J.index) tnIdx
      J.realize).arena[(pruneStep env st (stamp st.node2cids J.nodes J.index)
        tnIdx J.realize).active]? =
      some (mkNode (J.realize.index ++ "δ") (env.prune J.realize).2.length
        (env.prune J.realize).2) := by
    rw [hactive]
    exact pruneStep_arena_active_pos env st _ tnIdx J.realize htn hp
  refine ⟨?_, ?_, ?_⟩
  · refine ⟨{ nd0 with
        cut_size := some (env.mcd J.realize),
        children := nd0.children ++ [st.arena.length] }, ?_, rfl, rfl⟩
    rw [decideStep_preserves_lt env st _ st' d hi h (by omega)
      (by rw [hactive]; omega)]
    exact htnval
  · obtain ⟨nd, hnd, hcut, hthr, hgi, hns, hnn, hlab, _, _, _⟩ :=
      decideStep_arena_at_active env st _ st' d _ hi hδ h
    rw [hactive] at hnd
    rw [hview] at hcut hthr
    exact ⟨nd, hnd, hgi, hlab, hnn, hns, hcut, hthr⟩
  · intro u hu
    rw [decideStep_labels env st _ st' d h]
    rw [pruneStep_labels]
    rw [if_pos hp]
    rw [lookup_stamp]
    rw [if_pos hu, realize_index]

theorem processGraph_prune_spec_witness :
    (∃ ndP : TreeNodeData, witC5res.1.arena[1]? = some ndP ∧
      ndP.cut_size = some (envPrune.mcd witJ3.realize) ∧
      ndP.children = (mkNode witJ3.index witJ3.n witJ3.subset).children ++
        [(startState envPrune witJ3).arena.length]) ∧
    (∃ ndD : TreeNodeData,
      witC5res.1.arena[(startState envPrune witJ3).arena.length]? = some ndD ∧
      ndD.graph_index = witJ3.index ++ "δ" ∧
      ndD.label = witJ3.index ++ "δ" ∧
      ndD.num_nodes = (envPrune.prune witJ3.realize).2.length ∧
      ndD.nodeSet = (envPrune.prune witJ3.realize).2 ∧
      ndD.cut_size = some (envPrune.find_mincut (postPruneView envPrune witJ3)).cut_size ∧
      ndD.validity_threshold =
        some (envPrune.validity_threshold (postPruneView envPrune witJ3))) ∧
    (∀ u ∈ (envPrune.prune witJ3.realize).2,
      witC5res.1.node2cids.lookup u = some (witJ3.index ++ "δ")) :=
  processGraph_prune_spec envPrune (startState envPrune witJ3) witJ3
    witC5res.1 witC5res.2 1 (mkNode witJ3.index witJ3.n witJ3.subset)
    (by decide) (by decide) (by decide) (by decide) (by decide)


/-! ## The split branch's new tree nodes (generic shape lemmas) -/

theorem splitShape_sideA (a : List TreeNodeData) (act : Nat) (x y : TreeNodeData)
    (nm : List (String × Nat)) (subp1 subp2 : List IntangibleSubgraph)
    (hact : act < a.length) :
    (addSubclusterNodes
        (addSubclusterNodes
          (addChildIdx (addChildIdx (a ++ [x, y]) act a.length) act (a.length + 1))
          nm a.length subp1).1
        (addSubclusterNodes
          (addChildIdx (addChildIdx (a ++ [x, y]) act a.length) act (a.length + 1))
          nm a.length subp1).2
        (a.length + 1) subp2).1[a.length]? =
      some { x with
        children := x.children ++ List.range' (a.length + 2) subp1.length } := by
  have h1 : (a ++ [x, y])[a.length]? = some x := by
    rw [List.getElem?_append_right (le_refl _)]
    simp
  have h2 : (addChildIdx (addChildIdx (a ++ [x, y]) act a.length) act
      (a.length + 1))[a.length]? = some x := by
    unfold addChildIdx
    rw [getElem?_modifyAt_ne _ _ (by omega), getElem?_modifyAt_ne _ _ (by omega)]
    exact h1
  rw [getElem?_addSubclusterNodes_lt _ _ _ _
    (by rw [addSubclusterNodes_length, addTwoChildren_length]; omega)
    (by omega)]
  rw [getElem?_addSubclusterNodes_parent _ _ _ _ h2
    (by rw [addTwoChildren_length]; omega)]
  rw [addTwoChildren_length]

theorem splitShape_sideB (a : List TreeNodeData) (act : Nat) (x y : TreeNodeData)
    (nm : List (String × Nat)) (subp1 subp2 : List IntangibleSubgraph)
    (hact : act < a.length) :
    (addSubclusterNodes
        (addSubclusterNodes
          (addChildIdx (addChildIdx (a ++ [x, y]) act a.length) act (a.length + 1))
          nm a.length subp1).1
        (addSubclusterNodes
          (addChildIdx (addChildIdx (a ++ [x, y]) act a.length) act (a.length + 1))
          nm a.length subp1).2
        (a.length + 1) subp2).1[a.length + 1]? =
      some { y with
        children := y.children ++ List.range' (a.length + 2 + subp1.length) subp2.length } := by
  have h1 : (a ++ [x, y])[a.length + 1]? = some y := by
    rw [List.getElem?_append_right (by omega)]
    have : a.length + 1 - a.length = 1 := by omega
    rw [this]
    simp
  have h2 : (addChildIdx (addChildIdx (a ++ [x, y]) act a.length) act
      (a.length + 1))[a.length + 1]? = some y := by
    unfold addChildIdx
    rw [getElem?_modifyAt_ne _ _ (by omega), getElem?_modifyAt_ne _ _ (by omega)]
    exact h1
  have h3 : (addSubclusterNodes
      (addChildIdx (addChildIdx (a ++ [x, y]) act a.length) act (a.length + 1))
      nm a.length subp1).1[a.length + 1]? = some y := by
    rw [getElem?_addSubclusterNodes_lt _ _ _ _
      (by rw [addTwoChildren_length]; omega) (by omega)]
    exact h2
  rw [getElem?_addSubclusterNodes_parent _ _ _ _ h3
    (by rw [addSubclusterNodes_length, addTwoChildren_length]; omega)]
  rw [addSubclusterNodes_length, addTwoChildren_length]

theorem splitShape_newA (a : List TreeNodeData) (act : Nat) (x y : TreeNodeData)
    (nm : List (String × Nat)) (subp1 subp2 : List IntangibleSubgraph)
    (k : Nat) (hk : k < subp1.length) :
    (addSubclusterNodes
        (addSubclusterNodes
          (addChildIdx (addChildIdx (a ++ [x, y]) act a.length) act (a.length + 1))
          nm a.length subp1).1
        (addSubclusterNodes
          (addChildIdx (addChildIdx (a ++ [x, y]) act a.length) act (a.length + 1))
          nm a.length subp1).2
        (a.length + 1) subp2).1[a.length + 2 + k]? =
      (subp1[k]?).map (fun sg => mkNode sg.index sg.n sg.subset) := by
  have h1 := getElem?_addSubclusterNodes_new
    (addChildIdx (addChildIdx (a ++ [x, y]) act a.length) act (a.length + 1))
    nm a.length subp1 (by rw [addTwoChildren_length]; omega) k
  rw [addTwoChildren_length] at h1
  rw [getElem?_addSubclusterNodes_lt _ _ _ _
    (by rw [addSubclusterNodes_length, addTwoChildren_length]; omega)
    (by omega)]
  exact h1

theorem splitShape_newB (a : List TreeNodeData) (act : Nat) (x y : TreeNodeData)
    (nm : List (String × Nat)) (subp1 subp2 : List IntangibleSubgraph)
    (k : Nat) :
    (addSubclusterNodes
        (addSubclusterNodes
          (addChildIdx (addChildIdx (a ++ [x, y]) act a.length) act (a.length + 1))
          nm a.length subp1).1
        (addSubclusterNodes
          (addChildIdx (addChildIdx (a ++ [x, y]) act a.length) act (a.length + 1))
          nm a.length subp1).2
        (a.length + 1) subp2).1[a.length + 2 + subp1.length + k]? =
      (subp2[k]?).map (fun sg => mkNode sg.index sg.n sg.subset) := by
  have h1 := getElem?_addSubclusterNodes_new
    (addSubclusterNodes
      (addChildIdx (addChildIdx (a ++ [x, y]) act a.length) act (a.length + 1))
      nm a.length subp1).1
    (addSubclusterNodes
      (addChildIdx (addChildIdx (a ++ [x, y]) act a.length) act (a.length + 1))
      nm a.length subp1).2
    (a.length + 1) subp2
    (by rw [addSubclusterNodes_length, addTwoChildren_length]; omega) k
  rw [addSubclusterNodes_length, addTwoChildren_length] at h1
  rw [show a.length + 2 + subp1.length + k = a.length + 2 + (subp1.length + k) by omega]
  rw [show a.length + 2 + (subp1.length + k) = a.length + 2 + subp1.length + k by omega]
  rw [show a.length + 2 + subp1.length + k = (a.length + 2 + subp1.length) + k by omega]
  exact h1

theorem range'_map_graph_index (arena : List TreeNodeData)
    (sgs : List IntangibleSubgraph) (L : Nat)
    (h : ∀ k, k < sgs.length →
      (arena[L + k]?).map (fun nd => nd.graph_index) =
        (sgs[k]?).map (fun sg => sg.index)) :
    (List.range' L sgs.length).map
        (fun i => (arena[i]?).map (fun nd => nd.graph_index)) =
      sgs.map (fun sg => some sg.index) := by
  induction sgs generalizing L with
  | nil => rfl
  | cons sg sgs ih =>
    show (List.range' L (sgs.length + 1)).map _ = _
    rw [List.range'_succ, List.map_cons, List.map_cons]
    congr 1
    · have h0 := h 0 (by simp)
      simpa using h0
    · apply ih
      intro k hk
      have hh := h (k + 1) (by simp only [List.length_cons]; omega)
      rw [show L + 1 + k = L + (k + 1) by omega]
      simpa using hh

/-! ## Claim C6 -/

/-- Claim C6: on every split, the engine creates the two side tree nodes A
and B beneath the active node (their indices are appended to its child
list), reclusters each side with `cluster_without_singletons`, attaches one
tree node per returned subcluster beneath the corresponding side, and
pushes exactly the reclustered subclusters onto the work stack — the sides
themselves are never pushed. -/
theorem processGraph_split_spec (env : Env) (st : AlgState)
    (J : IntangibleSubgraph) (st' : AlgState) (d : Decision) (tnIdx : Nat)
    (hn : 1 < J.n)
    (hlk : st.node_mapping.lookup J.index = some tnIdx)
    (htn : tnIdx < st.arena.length)
    (hsplit : ((env.find_mincut (postPruneView env J)).cut_size : ℚ) ≤
        env.validity_threshold (postPruneView env J) ∧
      0 < (env.find_mincut (postPruneView env J)).cut_size)
    (h : processGraph env st J = some (st', d)) :
    d = Decision.split ∧
    st'.stack = st.stack ++
      env.cluster_without_singletons
        (env.cutByMincut (postPruneView env J)
          (env.find_mincut (postPruneView env J))).1 ++
      env.cluster_without_singletons
        (env.cutByMincut (postPruneView env J)
          (env.find_mincut (postPruneView env J))).2 ∧
    (∃ (ndAct : TreeNodeData) (pre : List Nat),
      st'.arena[if 0 < (env.prune J.realize).1 then st.arena.length else tnIdx]? =
        some ndAct ∧
      ndAct.children = pre ++
        [if 0 < (env.prune J.realize).1 then st.arena.length + 1 else st.arena.length,
         (if 0 < (env.prune J.realize).1 then st.arena.length + 1 else st.arena.length) + 1]) ∧
    (∃ ndA : TreeNodeData,
      st'.arena[if 0 < (env.prune J.realize).1 then st.arena.length + 1
        else st.arena.length]? = some ndA ∧
      ndA.graph_index = (env.cutByMincut (postPruneView env J)
        (env.find_mincut (postPruneView env J))).1.index ∧
      ndA.nodeSet = (env.cutByMincut (postPruneView env J)
        (env.find_mincut (postPruneView env J))).1.nodes ∧
      ndA.children.map (fun i => (st'.arena[i]?).map (fun nd => nd.graph_index)) =
        (env.cluster_without_singletons (env.cutByMincut (postPruneView env J)
          (env.find_mincut (postPruneView env J))).1).map (fun sg => some sg.index)) ∧
    (∃ ndB : TreeNodeData,
      st'.arena[(if 0 < (env.prune J.realize).1 then st.arena.length + 1
        else st.arena.length) + 1]? = some ndB ∧
      ndB.graph_index = (env.cutByMincut (postPruneView env J)
        (env.find_mincut (postPruneView env J))).2.index ∧
      ndB.nodeSet = (env.cutByMincut (postPruneView env J)
        (env.find_mincut (postPruneView env J))).2.nodes ∧
      ndB.children.map (fun i => (st'.arena[i]?).map (fun nd => nd.graph_index)) =
        (env.cluster_without_singletons (env.cutByMincut (postPruneView env J)
          (env.find_mincut (postPruneView env J))).2).map (fun sg => some sg.index)) := by
  have hn2 : ¬ J.n ≤ 1 := by omega
  rw [processGraph_nontrivial_eq env st J tnIdx hn2 hlk] at h
  set mid := pruneStep env st (stamp st.node2cids J.nodes J.index) tnIdx J.realize
    with hmid
  have hview : mid.view = postPruneView env J := pruneStep_view env st _ tnIdx J
  have hactive : mid.active =
      if 0 < (env.prune J.realize).1 then st.arena.length else tnIdx :=
    pruneStep_active env st _ tnIdx J.realize
  have hmlen : mid.arena.length =
      if 0 < (env.prune J.realize).1 then st.arena.length + 1 else st.arena.length := by
    by_cases hp : 0 < (env.prune J.realize).1
    · rw [if_pos hp]
      exact pruneStep_length_pos env st _ tnIdx J.realize hp
    · rw [if_neg hp]
      rw [hmid, pruneStep_zero env st _ tnIdx J.realize hp]
  have hactlt : mid.active < mid.arena.length := by
    rw [hactive, hmlen]
    by_cases hp : 0 < (env.prune J.realize).1
    · rw [if_pos hp, if_pos hp]
      omega
    · rw [if_neg hp, if_neg hp]
      exact htn
  have hact2 : mid.active < (decideArena env mid).length := by
    rw [decideArena_length]
    exact hactlt
  have hi := pruneStep_lookup_active env st (stamp st.node2cids J.nodes J.index)
    tnIdx J hlk
  obtain ⟨ndMid, hMid⟩ := pruneStep_arena_active_some env st
    (stamp st.node2cids J.nodes J.index) tnIdx J htn
  obtain ⟨ndAct, hndAct, _, _, _, _, _, _, _, _, hchild⟩ :=
    decideStep_arena_at_active env st mid st' d ndMid hi hMid h
  have hQ : (decideArena env mid).length =
      if 0 < (env.prune J.realize).1 then st.arena.length + 1 else st.arena.length := by
    rw [decideArena_length]
    exact hmlen
  rcases decideStep_some_cases env st mid st' d h with
    ⟨hc, hst, hd⟩ | ⟨hc, _, _, _, _, _⟩ | ⟨hc, _, _, _, _, _⟩
  · have hA : (splitState env st mid).arena[(decideArena env mid).length]? =
        some { mkNode (env.cutByMincut mid.view (env.find_mincut mid.view)).1.index
            (env.cutByMincut mid.view (env.find_mincut mid.view)).1.n
            (env.cutByMincut mid.view (env.find_mincut mid.view)).1.nodes with
          children := List.range' ((decideArena env mid).length + 2)
            (env.cluster_without_singletons
              (env.cutByMincut mid.view (env.find_mincut mid.view)).1).length } := by
      simp only [splitState]
      exact splitShape_sideA _ _ _ _ _ _ _ hact2
    have hB : (splitState env st mid).arena[(decideArena env mid).length + 1]? =
        some { mkNode (env.cutByMincut mid.view (env.find_mincut mid.view)).2.index
            (env.cutByMincut mid.view (env.find_mincut mid.view)).2.n
            (env.cutByMincut mid.view (env.find_mincut mid.view)).2.nodes with
          children := List.range' ((decideArena env mid).length + 2 +
              (env.cluster_without_singletons
                (env.cutByMincut mid.view (env.find_mincut mid.view)).1).length)
            (env.cluster_without_singletons
              (env.cutByMincut mid.view (env.find_mincut mid.view)).2).length } := by
      simp only [splitState]
      exact splitShape_sideB _ _ _ _ _ _ _ hact2
    have hNA : ∀ k, k < (env.cluster_without_singletons
        (env.cutByMincut mid.view (env.find_mincut mid.view)).1).length →
        (splitState env st mid).arena[(decideArena env mid).length + 2 + k]? =
          ((env.cluster_without_singletons
            (env.cutByMincut mid.view (env.find_mincut mid.view)).1)[k]?).map
            (fun sg => mkNode sg.index sg.n sg.subset) := by
      intro k hk
      simp only [splitState]
      exact splitShape_newA _ _ _ _ _ _ _ k hk
    have hNB : ∀ k,
        (splitState env st mid).arena[(decideArena env mid).length + 2 +
          (env.cluster_without_singletons
            (env.cutByMincut mid.view (env.find_mincut mid.view)).1).length + k]? =
          ((env.cluster_without_singletons
            (env.cutByMincut mid.view (env.find_mincut mid.view)).2)[k]?).map
            (fun sg => mkNode sg.index sg.n sg.subset) := by
      intro k
      simp only [splitState]
      exact splitShape_newB _ _ _ _ _ _ _ k
    subst hst
    subst hd
    rw [hview] at hA hB hNA hNB
    refine ⟨rfl, ?_, ?_, ?_, ?_⟩
    · show (splitState env st mid).stack = _
      simp only [splitState]
      rw [hview]
    · refine ⟨ndAct, ndMid.children, ?_, ?_⟩
      · rw [← hactive]
        exact hndAct
      · have hc2 := (hchild rfl).1
        rw [hmlen] at hc2
        exact hc2
    · refine ⟨{ mkNode (env.cutByMincut (postPruneView env J)
            (env.find_mincut (postPruneView env J))).1.index
          (env.cutByMincut (postPruneView env J)
            (env.find_mincut (postPruneView env J))).1.n
          (env.cutByMincut (postPruneView env J)
            (env.find_mincut (postPruneView env J))).1.nodes with
        children := List.range' ((decideArena env mid).length + 2)
          (env.cluster_without_singletons (env.cutByMincut (postPruneView env J)
            (env.find_mincut (postPruneView env J))).1).length }, ?_, rfl, rfl, ?_⟩
      · rw [← hQ]
        exact hA
      · show (List.range' ((decideArena env mid).length + 2) _).map _ = _
        apply range'_map_graph_index
        intro k hk
        rw [hNA k hk]
        cases hx : (env.cluster_without_singletons
            (env.cutByMincut (postPruneView env J)
              (env.find_mincut (postPruneView env J))).1)[k]? with
        | none => simp
        | some sg => simp [mkNode]
    · refine ⟨{ mkNode (env.cutByMincut (postPruneView env J)
            (env.find_mincut (postPruneView env J))).2.index
          (env.cutByMincut (postPruneView env J)
            (env.find_mincut (postPruneView env J))).2.n
          (env.cutByMincut (postPruneView env J)
            (env.find_mincut (postPruneView env J))).2.nodes with
        children := List.range' ((decideArena env mid).length + 2 +
          (env.cluster_without_singletons (env.cutByMincut (postPruneView env J)
            (env.find_mincut (postPruneView env J))).1).length)
          (env.cluster_without_singletons (env.cutByMincut (postPruneView env J)
            (env.find_mincut (postPruneView env J))).2).length }, ?_, rfl, rfl, ?_⟩
      · rw [show (if 0 < (env.prune J.realize).1 then st.arena.length + 1
            else st.arena.length) + 1 = (decideArena env mid).length + 1 by rw [hQ]]
        exact hB
      · show (List.range' ((decideArena env mid).length + 2 + _) _).map _ = _
        apply range'_map_graph_index
        intro k hk
        rw [hNB k]
        cases hx : (env.cluster_without_singletons
            (env.cutByMincut (postPruneView env J)
              (env.find_mincut (postPruneView env J))).2)[k]? with
        | none => simp
        | some sg => simp [mkNode]
  · rw [hview] at hc
    exact absurd hsplit hc
  · rw [hview] at hc
    exact absurd hsplit hc

theorem processGraph_split_spec_witness :
    witC6res.2 = Decision.split ∧
    witC6res.1.stack = (startState envRecluster witJ4).stack ++
      envRecluster.cluster_without_singletons
        (envRecluster.cutByMincut (postPruneView envRecluster witJ4)
          (envRecluster.find_mincut (postPruneView envRecluster witJ4))).1 ++
      envRecluster.cluster_without_singletons
        (envRecluster.cutByMincut (postPruneView envRecluster witJ4)
          (envRecluster.find_mincut (postPruneView envRecluster witJ4))).2 ∧
    (∃ (ndAct : TreeNodeData) (pre : List Nat),
      witC6res.1.arena[if 0 < (envRecluster.prune witJ4.realize).1 then
        (startState envRecluster witJ4).arena.length else 1]? = some ndAct ∧
      ndAct.children = pre ++
        [if 0 < (envRecluster.prune witJ4.realize).1 then
          (startState envRecluster witJ4).arena.length + 1
          else (startState envRecluster witJ4).arena.length,
         (if 0 < (envRecluster.prune witJ4.realize).1 then
          (startState envRecluster witJ4).arena.length + 1
          else (startState envRecluster witJ4).arena.length) + 1]) ∧
    (∃ ndA : TreeNodeData,
      witC6res.1.arena[if 0 < (envRecluster.prune witJ4.realize).1 then
        (startState envRecluster witJ4).arena.length + 1
        else (startState envRecluster witJ4).arena.length]? = some ndA ∧
      ndA.graph_index = (envRecluster.cutByMincut (postPruneView envRecluster witJ4)
        (envRecluster.find_mincut (postPruneView envRecluster witJ4))).1.index ∧
      ndA.nodeSet = (envRecluster.cutByMincut (postPruneView envRecluster witJ4)
        (envRecluster.find_mincut (postPruneView envRecluster witJ4))).1.nodes ∧
      ndA.children.map (fun i => (witC6res.1.arena[i]?).map (fun nd => nd.graph_index)) =
        (envRecluster.cluster_without_singletons
          (envRecluster.cutByMincut (postPruneView envRecluster witJ4)
            (envRecluster.find_mincut (postPruneView envRecluster witJ4))).1).map
          (fun sg => some sg.index)) ∧
    (∃ ndB : TreeNodeData,
      witC6res.1.arena[(if 0 < (envRecluster.prune witJ4.realize).1 then
        (startState envRecluster witJ4).arena.length + 1
        else (startState envRecluster witJ4).arena.length) + 1]? = some ndB ∧
      ndB.graph_index = (envRecluster.cutByMincut (postPruneView envRecluster witJ4)
        (envRecluster.find_mincut (postPruneView envRecluster witJ4))).2.index ∧
      ndB.nodeSet = (envRecluster.cutByMincut (postPruneView envRecluster witJ4)
        (envRecluster.find_mincut (postPruneView envRecluster witJ4))).2.nodes ∧
      ndB.children.map (fun i => (witC6res.1.arena[i]?).map (fun nd => nd.graph_index)) =
        (envRecluster.cluster_without_singletons
          (envRecluster.cutByMincut (postPruneView envRecluster witJ4)
            (envRecluster.find_mincut (postPruneView envRecluster witJ4))).2).map
          (fun sg => some sg.index)) :=
  processGraph_split_spec envRecluster (startState envRecluster witJ4) witJ4
    witC6res.1 witC6res.2 1 (by decide) (by decide) (by decide) (by decide)
    (by decide)

/-! ## Claim C1 -/

theorem processGraph_ans_cases (env : Env) (st : AlgState)
    (J : IntangibleSubgraph) (st' : AlgState) (d : Decision)
    (h : processGraph env st J = some (st', d)) :
    st'.ans = st.ans ∨
    ∃ C : IntangibleSubgraph, st'.ans = st.ans ++ [C] ∧ acceptedOk env C := by
  by_cases hn : J.n ≤ 1
  · rw [processGraph_trivial_eq env st J hn] at h
    simp only [Option.some.injEq, Prod.mk.injEq] at h
    left
    rw [← h.1]
  · cases hlk : st.node_mapping.lookup J.index with
    | none =>
      rw [processGraph_none_of_lookup_none env st J hn hlk] at h
      cases h
    | some tnIdx =>
      rw [processGraph_nontrivial_eq env st J tnIdx hn hlk] at h
      rcases decideStep_ans_cases env st _ st' d h with hsame | ⟨happ, hneg, hg⟩
      · left
        exact hsame
      · right
        refine ⟨_, happ, ?_⟩
        unfold acceptedOk
      
        refine ⟨(pruneStep env st (stamp st.node2cids J.nodes J.index) tnIdx
          J.realize).view, rfl, ?_, hg⟩
        rcases Nat.eq_zero_or_pos (env.find_mincut (pruneStep env st
            (stamp st.node2cids J.nodes J.index) tnIdx J.realize).view).cut_size with
          h0 | hpos
        · right
          exact h0
        · left
          by_contra hle
          push_neg at hle
          exact hneg ⟨hle, hpos⟩

theorem loopG_succ_none (env : Env) (fuel : Nat) (st : AlgState)
    (h : st.stack.getLast? = none) : loopG env (fuel + 1) st = some st := by
  simp only [loopG]
  rw [h]

theorem loopG_succ_some (env : Env) (fuel : Nat) (st : AlgState)
    (J : IntangibleSubgraph) (h : st.stack.getLast? = some J) :
    loopG env (fuel + 1) st =
      match processGraph env { st with stack := st.stack.dropLast } J with
      | none => none
      | some r => loopG env fuel r.1 := by
  simp only [loopG]
  rw [h]

theorem loopG_ans (env : Env) (fuel : Nat) (st st' : AlgState)
    (h : loopG env fuel st = some st')
    (hinv : ∀ C ∈ st.ans, acceptedOk env C) :
    ∀ C ∈ st'.ans, acceptedOk env C := by
  induction fuel generalizing st with
  | zero =>
    simp only [loopG] at h
    by_cases he : st.stack.isEmpty
    · rw [if_pos he] at h
      obtain rfl : st = st' := Option.some.inj h
      exact hinv
    · rw [if_neg he] at h
      cases h
  | succ fuel ih =>
    cases hlast : st.stack.getLast? with
    | none =>
      rw [loopG_succ_none env fuel st hlast] at h
      obtain rfl : st = st' := Option.some.inj h
      exact hinv
    | some J =>
      rw [loopG_succ_some env fuel st J hlast] at h
      cases hpg : processGraph env { st with stack := st.stack.dropLast } J with
      | none =>
        rw [hpg] at h
        cases h
      | some r =>
        rw [hpg] at h
        refine ih r.1 h ?_
        rcases processGraph_ans_cases env _ J r.1 r.2 (by rw [hpg]) with hsame | ⟨C, happ, hok⟩
        · rw [hsame]
          exact hinv
        · rw [happ]
          intro C2 hC2
          rcases List.mem_append.mp hC2 with hC2 | hC2
          · exact hinv C2 hC2
          · rw [List.mem_singleton.mp hC2]
            exact hok

/-- Claim C1: in every terminating run of the engine, every cluster `C` of
the returned `ans` has a decision-time view `V` (`C = V.to_intangible`)
whose mincut `cut_size` strictly exceeds the validity threshold computed
for it, or whose `cut_size` equals 0; and every accepted cluster passed the
IKC modularity guard (non-IKC clusterer, or modularity > 0), so a zero-cut
cluster is accepted only through that guard. -/
theorem algorithmG_ans_cut_valid (env : Env) (gs : List IntangibleSubgraph)
    (quiet : Bool) (fuel : Nat) (ans : List IntangibleSubgraph)
    (labels : List (Nat × String)) (arena : List TreeNodeData)
    (h : algorithm_g env gs quiet fuel = some (ans, labels, arena)) :
    ∀ C ∈ ans, ∃ V : RealizedView, C = V.to_intangible ∧
      (env.validity_threshold V < ((env.find_mincut V).cut_size : ℚ) ∨
        (env.find_mincut V).cut_size = 0) ∧
      (env.isIkc = false ∨ 0 < env.modularity_of C) := by
  simp only [algorithm_g] at h
  cases hl : loopG env fuel (initState env gs) with
  | none =>
    rw [hl] at h
    cases h
  | some stf =>
    rw [hl] at h
    simp only [Option.some.injEq, Prod.mk.injEq] at h
    have hok := loopG_ans env fuel (initState env gs) stf hl
      (by intro C hC; cases hC)
    intro C hC
    have := hok C (by rw [h.1]; exact hC)
    unfold acceptedOk at this
    obtain ⟨V, hCV, hcut, hg⟩ := this
    exact ⟨V, hCV, hcut, hg⟩

theorem algorithmG_ans_cut_valid_witness :
    ∃ V : RealizedView, witJ = V.to_intangible ∧
      (envAccept.validity_threshold V < ((envAccept.find_mincut V).cut_size : ℚ) ∨
        (envAccept.find_mincut V).cut_size = 0) ∧
      (envAccept.isIkc = false ∨ 0 < envAccept.modularity_of witJ) :=
  algorithmG_ans_cut_valid envAccept [witJ] false 1 witC1res.1 witC1res.2.1
    witC1res.2.2 (by decide) witJ (by decide)

/-! ## Claim C7 -/

/-- Claim C7: `algorithm_g` is deterministic — two runs with the same
global graph and external operations (`Env`), the same initial cluster
list, the same quiet flag and the same iteration budget return equal
`(ans, labels, tree)` results. -/
theorem algorithmG_deterministic (env1 env2 : Env)
    (gs1 gs2 : List IntangibleSubgraph) (q1 q2 : Bool) (fuel1 fuel2 : Nat)
    (henv : env1 = env2) (hgs : gs1 = gs2) (hq : q1 = q2) (hf : fuel1 = fuel2) :
    algorithm_g env1 gs1 q1 fuel1 = algorithm_g env2 gs2 q2 fuel2 := by
  subst henv
  subst hgs
  subst hq
  subst hf
  rfl

theorem algorithmG_deterministic_witness :
    algorithm_g envAccept [witJ] false 1 = algorithm_g envAccept [witJ] false 1 :=
  algorithmG_deterministic envAccept envAccept [witJ] [witJ] false false 1 1
    rfl rfl rfl rfl

/-! ## Label and stack invariants toward Claim C4 -/

theorem labelsOk_mono {a b : List TreeNodeData} (hp : ArenaPres a b)
    {l : List (Nat × String)} (h : labelsOk a l) : labelsOk b l := by
  unfold labelsOk at h ⊢
  intro u s hs
  obtain ⟨j, nd, hj, hg, hu⟩ := h u s hs
  obtain ⟨nd2, hj2, hg2, hs2⟩ := hp j nd hj
  exact ⟨j, nd2, hj2, hg2.trans hg, by rw [hs2]; exact hu⟩

theorem stackOk_mono {a b : List TreeNodeData} (hp : ArenaPres a b)
    {stk : List IntangibleSubgraph} (h : stackOk a stk) : stackOk b stk := by
  unfold stackOk at h ⊢
  intro K hK
  obtain ⟨j, nd, hj, hg, hs⟩ := h K hK
  obtain ⟨nd2, hj2, hg2, hs2⟩ := hp j nd hj
  exact ⟨j, nd2, hj2, hg2.trans hg, hs2.trans hs⟩

theorem labelsOk_stamp {a : List TreeNodeData} {l : List (Nat × String)}
    (h : labelsOk a l) {ns : List Nat} {idx : String} {j : Nat}
    {nd : TreeNodeData} (hnd : a[j]? = some nd) (hgi : nd.graph_index = idx)
    (hsub : ∀ u ∈ ns, u ∈ nd.nodeSet) : labelsOk a (stamp l ns idx) := by
  unfold labelsOk at h ⊢
  intro u s hs
  rw [lookup_stamp] at hs
  by_cases hu : u ∈ ns
  · rw [if_pos hu] at hs
    obtain rfl : idx = s := Option.some.inj hs
    exact ⟨j, nd, hnd, hgi, hsub u hu⟩
  · rw [if_neg hu] at hs
    exact h u s hs

theorem pruneStep_delta_node (env : Env) (st : AlgState)
    (labels1 : List (Nat × String)) (tnIdx : Nat) (V : RealizedView)
    (hp : 0 < (env.prune V).1) :
    ∃ nd : TreeNodeData,
      (pruneStep env st labels1 tnIdx V).arena[st.arena.length]? = some nd ∧
      nd.graph_index = V.index ++ "δ" ∧ nd.nodeSet = (env.prune V).2 := by
  rw [pruneStep_pos env st labels1 tnIdx V hp]
  have h2 : ((modifyAt st.arena tnIdx
      (fun nd => { nd with cut_size := some (env.mcd V) }))
      ++ [mkNode (V.index ++ "δ") (env.prune V).2.length
        (env.prune V).2])[st.arena.length]? =
      some (mkNode (V.index ++ "δ") (env.prune V).2.length (env.prune V).2) := by
    rw [show st.arena.length = (modifyAt st.arena tnIdx
      (fun nd => { nd with cut_size := some (env.mcd V) })).length from
      (modifyAt_length _ _ _).symm]
    exact List.getElem?_concat_length _ _
  obtain ⟨nd2, hj2, hg2, hs2⟩ := arenaPres_addChildIdx _ tnIdx st.arena.length
    st.arena.length _ h2
  exact ⟨nd2, hj2, by rw [hg2]; rfl, by rw [hs2]; rfl⟩

theorem arenaPres_splitState (env : Env) (st : AlgState) (mid : MidState) :
    ArenaPres mid.arena (splitState env st mid).arena := by
  simp only [splitState]
  refine arenaPres_trans ?_ (arenaPres_addSubclusterNodes _ _ _ _)
  refine arenaPres_trans ?_ (arenaPres_addSubclusterNodes _ _ _ _)
  refine arenaPres_trans ?_ (arenaPres_addChildIdx _ _ _)
  refine arenaPres_trans ?_ (arenaPres_addChildIdx _ _ _)
  refine arenaPres_trans ?_ (arenaPres_append _ _)
  unfold decideArena
  exact arenaPres_modifyAt _ _ _ (fun _ => ⟨rfl, rfl⟩)

theorem arenaPres_decideStep (env : Env) (st : AlgState) (mid : MidState)
    (st' : AlgState) (d : Decision) (h : decideStep env st mid = some (st', d)) :
    ArenaPres mid.arena st'.arena := by
  rcases decideStep_some_cases env st mid st' d h with
    ⟨_, hst, _⟩ | ⟨_, _, i, _, hst, _⟩ | ⟨_, _, i, _, hst, _⟩
  · subst hst
    exact arenaPres_splitState env st mid
  · subst hst
    refine arenaPres_trans ?_ (arenaPres_modifyAt _ _ _ (fun _ => ⟨rfl, rfl⟩))
    unfold decideArena
    exact arenaPres_modifyAt _ _ _ (fun _ => ⟨rfl, rfl⟩)
  · subst hst
    refine arenaPres_trans ?_ (arenaPres_modifyAt _ _ _ (fun _ => ⟨rfl, rfl⟩))
    unfold decideArena
    exact arenaPres_modifyAt _ _ _ (fun _ => ⟨rfl, rfl⟩)

theorem getElem?_lt_of_some2 {α : Type} {l : List α} {j : Nat} {x : α}
    (h : l[j]? = some x) : j < l.length := by
  by_contra hc
  push_neg at hc
  rw [List.getElem?_len_le hc] at h
  cases h

theorem processGraph_inv (env : Env) (st : AlgState) (J : IntangibleSubgraph)
    (st' : AlgState) (d : Decision)
    (h : processGraph env st J = some (st', d))
    (hJ : ∃ (j : Nat) (nd : TreeNodeData), st.arena[j]? = some nd ∧
      nd.graph_index = J.index ∧ nd.nodeSet = J.subset)
    (hl : labelsOk st.arena st.node2cids)
    (hs : stackOk st.arena st.stack) :
    labelsOk st'.arena st'.node2cids ∧ stackOk st'.arena st'.stack := by
  obtain ⟨j0, nd0, hj0, hg0, hs0⟩ := hJ
  have hl1 : labelsOk st.arena (stamp st.node2cids J.nodes J.index) :=
    labelsOk_stamp hl hj0 hg0 (fun u hu => by rw [hs0]; exact hu)
  by_cases hn : J.n ≤ 1
  · rw [processGraph_trivial_eq env st J hn] at h
    simp only [Option.some.injEq, Prod.mk.injEq] at h
    rw [← h.1]
    exact ⟨hl1, hs⟩
  · cases hlk : st.node_mapping.lookup J.index with
    | none =>
      rw [processGraph_none_of_lookup_none env st J hn hlk] at h
      cases h
    | some tnIdx =>
      rw [processGraph_nontrivial_eq env st J tnIdx hn hlk] at h
      set mid := pruneStep env st (stamp st.node2cids J.nodes J.index) tnIdx
        J.realize with hmid
      have hPres1 : ArenaPres st.arena mid.arena :=
        arenaPres_pruneStep env st _ tnIdx J.realize
      have hPres2 : ArenaPres mid.arena st'.arena :=
        arenaPres_decideStep env st mid st' d h
      have hlmid : labelsOk mid.arena mid.labels := by
        by_cases hp : 0 < (env.prune J.realize).1
        · have hlab : mid.labels = stamp (stamp st.node2cids J.nodes J.index)
              (env.prune J.realize).2 (J.realize.index ++ "δ") := by
            rw [hmid, pruneStep_labels, if_pos hp]
          obtain ⟨ndd, hndd, hgd, hsd⟩ := pruneStep_delta_node env st
            (stamp st.node2cids J.nodes J.index) tnIdx J.realize hp
          rw [hlab]
          exact labelsOk_stamp (labelsOk_mono hPres1 hl1) hndd hgd
            (fun u hu => by rw [hsd]; exact hu)
        · have hlab : mid.labels = stamp st.node2cids J.nodes J.index := by
            rw [hmid, pruneStep_labels, if_neg hp]
          have harena : mid.arena = st.arena := by
            rw [hmid, pruneStep_zero env st _ tnIdx J.realize hp]
          rw [hlab, harena]
          exact hl1
      have hsmid : stackOk mid.arena st.stack := stackOk_mono hPres1 hs
      refine ⟨?_, ?_⟩
      · rw [decideStep_labels env st mid st' d h]
        exact labelsOk_mono hPres2 hlmid
      · rcases decideStep_some_cases env st mid st' d h with
          ⟨hc, hst, hd⟩ | ⟨_, _, i, _, hst, _⟩ | ⟨_, _, i, _, hst, _⟩
        · have hNA : ∀ k, k < (env.cluster_without_singletons
              (env.cutByMincut mid.view (env.find_mincut mid.view)).1).length →
              (splitState env st mid).arena[(decideArena env mid).length + 2 + k]? =
                ((env.cluster_without_singletons
                  (env.cutByMincut mid.view (env.find_mincut mid.view)).1)[k]?).map
                  (fun sg => mkNode sg.index sg.n sg.subset) := by
            intro k hk
            simp only [splitState]
            exact splitShape_newA _ _ _ _ _ _ _ k hk
          have hNB : ∀ k, (splitState env st mid).arena[(decideArena env mid).length
                + 2 + (env.cluster_without_singletons
                  (env.cutByMincut mid.view (env.find_mincut mid.view)).1).length + k]? =
                ((env.cluster_without_singletons
                  (env.cutByMincut mid.view (env.find_mincut mid.view)).2)[k]?).map
                  (fun sg => mkNode sg.index sg.n sg.subset) := by
            intro k
            simp only [splitState]
            exact splitShape_newB _ _ _ _ _ _ _ k
          subst hst
          have hstk : (splitState env st mid).stack = st.stack ++
              env.cluster_without_singletons
                (env.cutByMincut mid.view (env.find_mincut mid.view)).1 ++
              env.cluster_without_singletons
                (env.cutByMincut mid.view (env.find_mincut mid.view)).2 := by
            simp only [splitState]
          unfold stackOk
          intro K hK
          rw [hstk] at hK
          rcases List.mem_append.mp hK with hK1 | hK2
          · rcases List.mem_append.mp hK1 with hK0 | hKa
            · exact stackOk_mono hPres2 hsmid K hK0
            · obtain ⟨k, hk⟩ := List.mem_iff_getElem?.mp hKa
              have hklt := getElem?_lt_of_some2 hk
              refine ⟨(decideArena env mid).length + 2 + k,
                mkNode K.index K.n K.subset, ?_, rfl, rfl⟩
              rw [hNA k hklt, hk]
              rfl
          · obtain ⟨k, hk⟩ := List.mem_iff_getElem?.mp hK2
            refine ⟨(decideArena env mid).length + 2 +
              (env.cluster_without_singletons
                (env.cutByMincut mid.view (env.find_mincut mid.view)).1).length + k,
              mkNode K.index K.n K.subset, ?_, rfl, rfl⟩
            rw [hNB k, hk]
            rfl
        · subst hst
          exact stackOk_mono hPres2 hsmid
        · subst hst
          exact stackOk_mono hPres2 hsmid

theorem processGraph_labels_isSome (env : Env) (st : AlgState)
    (J : IntangibleSubgraph) (st' : AlgState) (d : Decision)
    (h : processGraph env st J = some (st', d)) (u : Nat)
    (hu : (st.node2cids.lookup u).isSome ∨ u ∈ J.subset) :
    (st'.node2cids.lookup u).isSome := by
  have base : ((stamp st.node2cids J.nodes J.index).lookup u).isSome := by
    rcases hu with hu | hu
    · exact lookup_stamp_isSome _ _ _ _ hu
    · rw [lookup_stamp, if_pos (show u ∈ J.nodes from hu)]
      rfl
  by_cases hn : J.n ≤ 1
  · rw [processGraph_trivial_eq env st J hn] at h
    simp only [Option.some.injEq, Prod.mk.injEq] at h
    rw [← h.1]
    exact base
  · cases hlk : st.node_mapping.lookup J.index with
    | none =>
      rw [processGraph_none_of_lookup_none env st J hn hlk] at h
      cases h
    | some tnIdx =>
      rw [processGraph_nontrivial_eq env st J tnIdx hn hlk] at h
      rw [decideStep_labels env st _ st' d h]
      rw [pruneStep_labels]
      by_cases hp : 0 < (env.prune J.realize).1
      · rw [if_pos hp]
        exact lookup_stamp_isSome _ _ _ _ base
      · rw [if_neg hp]
        exact base

theorem processGraph_stack_sub (env : Env) (st : AlgState)
    (J : IntangibleSubgraph) (st' : AlgState) (d : Decision)
    (h : processGraph env st J = some (st', d)) (K : IntangibleSubgraph)
    (hK : K ∈ st.stack) : K ∈ st'.stack := by
  by_cases hn : J.n ≤ 1
  · rw [processGraph_trivial_eq env st J hn] at h
    simp only [Option.some.injEq, Prod.mk.injEq] at h
    rw [← h.1]
    exact hK
  · cases hlk : st.node_mapping.lookup J.index with
    | none =>
      rw [processGraph_none_of_lookup_none env st J hn hlk] at h
      cases h
    | some tnIdx =>
      rw [processGraph_nontrivial_eq env st J tnIdx hn hlk] at h
      rcases decideStep_stack_cases env st _ st' d h with ⟨_, hstk⟩ | ⟨_, hstk⟩
      · rw [hstk]
        exact List.mem_append.mpr (Or.inl (List.mem_append.mpr (Or.inl hK)))
      · rw [hstk]
        exact hK

theorem loopG_stack_nil (env : Env) (fuel : Nat) (st st' : AlgState)
    (h : loopG env fuel st = some st') : st'.stack = [] := by
  induction fuel generalizing st with
  | zero =>
    simp only [loopG] at h
    by_cases he : st.stack.isEmpty
    · rw [if_pos he] at h
      obtain rfl : st = st' := Option.some.inj h
      exact List.isEmpty_iff.mp he
    · rw [if_neg he] at h
      cases h
  | succ fuel ih =>
    cases hlast : st.stack.getLast? with
    | none =>
      rw [loopG_succ_none env fuel st hlast] at h
      obtain rfl : st = st' := Option.some.inj h
      exact List.getLast?_eq_none_iff.mp hlast
    | some J =>
      rw [loopG_succ_some env fuel st J hlast] at h
      cases hpg : processGraph env { st with stack := st.stack.dropLast } J with
      | none =>
        rw [hpg] at h
        cases h
      | some r =>
        rw [hpg] at h
        exact ih r.1 h

theorem loopG_covered (env : Env) (fuel : Nat) (st st' : AlgState)
    (h : loopG env fuel st = some st') (u : Nat)
    (hc : (st.node2cids.lookup u).isSome ∨ ∃ K ∈ st.stack, u ∈ K.subset) :
    (st'.node2cids.lookup u).isSome := by
  induction fuel generalizing st with
  | zero =>
    simp only [loopG] at h
    by_cases he : st.stack.isEmpty
    · rw [if_pos he] at h
      obtain rfl : st = st' := Option.some.inj h
      rcases hc with hc | ⟨K, hK, _⟩
      · exact hc
      · rw [List.isEmpty_iff.mp he] at hK
        cases hK
    · rw [if_neg he] at h
      cases h
  | succ fuel ih =>
    cases hlast : st.stack.getLast? with
    | none =>
      rw [loopG_succ_none env fuel st hlast] at h
      obtain rfl : st = st' := Option.some.inj h
      rcases hc with hc | ⟨K, hK, _⟩
      · exact hc
      · rw [List.getLast?_eq_none_iff.mp hlast] at hK
        cases hK
    | some J =>
      rw [loopG_succ_some env fuel st J hlast] at h
      cases hpg : processGraph env { st with stack := st.stack.dropLast } J with
      | none =>
        rw [hpg] at h
        cases h
      | some r =>
        rw [hpg] at h
        have hdec : st.stack = st.stack.dropLast ++ [J] :=
          (List.dropLast_append_getLast? J hlast).symm
        refine ih r.1 h ?_
        rcases hc with hm | ⟨K, hK, hu⟩
        · left
          exact processGraph_labels_isSome env
            { st with stack := st.stack.dropLast } J r.1 r.2 (by rw [hpg]) u
            (Or.inl hm)
        · rw [hdec] at hK
          rcases List.mem_append.mp hK with hK | hK
          · right
            exact ⟨K, processGraph_stack_sub env
              { st with stack := st.stack.dropLast } J r.1 r.2 (by rw [hpg])
              K hK, hu⟩
          · left
            obtain rfl : J = K := (List.mem_singleton.mp hK).symm
            exact processGraph_labels_isSome env
              { st with stack := st.stack.dropLast } J r.1 r.2 (by rw [hpg]) u
              (Or.inr hu)

theorem loopG_inv (env : Env) (fuel : Nat) (st st' : AlgState)
    (h : loopG env fuel st = some st')
    (hl : labelsOk st.arena st.node2cids)
    (hs : stackOk st.arena st.stack) :
    labelsOk st'.arena st'.node2cids := by
  induction fuel generalizing st with
  | zero =>
    simp only [loopG] at h
    by_cases he : st.stack.isEmpty
    · rw [if_pos he] at h
      obtain rfl : st = st' := Option.some.inj h
      exact hl
    · rw [if_neg he] at h
      cases h
  | succ fuel ih =>
    cases hlast : st.stack.getLast? with
    | none =>
      rw [loopG_succ_none env fuel st hlast] at h
      obtain rfl : st = st' := Option.some.inj h
      exact hl
    | some J =>
      rw [loopG_succ_some env fuel st J hlast] at h
      cases hpg : processGraph env { st with stack := st.stack.dropLast } J with
      | none =>
        rw [hpg] at h
        cases h
      | some r =>
        rw [hpg] at h
        have hdec : st.stack = st.stack.dropLast ++ [J] :=
          (List.dropLast_append_getLast? J hlast).symm
        have hJmem : J ∈ st.stack := by
          rw [hdec]
          exact List.mem_append.mpr (Or.inr (List.mem_singleton.mpr rfl))
        have hinv := processGraph_inv env { st with stack := st.stack.dropLast }
          J r.1 r.2 (by rw [hpg]) (hs J hJmem) hl ?_
        · exact ih r.1 h hinv.1 hinv.2
        · intro K hK
          refine hs K ?_
          rw [hdec]
          exact List.mem_append.mpr (Or.inl hK)

theorem initState_arena_nodes (env : Env) (gs : List IntangibleSubgraph) :
    ∀ g ∈ gs, ∃ (j : Nat) (nd : TreeNodeData),
      (initState env gs).arena[j]? = some nd ∧ nd.graph_index = g.index ∧
      nd.nodeSet = g.subset := by
  intro g hg
  obtain ⟨k, hk⟩ := List.mem_iff_getElem?.mp hg
  refine ⟨1 + k, mkNode g.index g.n g.subset, ?_, rfl, rfl⟩
  have hnew := getElem?_addSubclusterNodes_new
    [mkNode env.globalIndex env.globalN env.globalNodes] [] 0 gs (by simp) k
  rw [hk] at hnew
  exact hnew

theorem initState_labelsOk (env : Env) (gs : List IntangibleSubgraph) :
    labelsOk (initState env gs).arena (initState env gs).node2cids := by
  unfold labelsOk
  intro u s hs
  have hnil : (initState env gs).node2cids = [] := rfl
  rw [hnil] at hs
  simp [List.lookup] at hs

theorem initState_stackOk (env : Env) (gs : List IntangibleSubgraph) :
    stackOk (initState env gs).arena (initState env gs).stack := by
  unfold stackOk
  intro g hg
  exact initState_arena_nodes env gs g hg

/-! ## Claim C4: counterexample and amended statement -/

/-- Claim C4, as stated, is false: in the single-edge split run, node 0 is
labeled `"0"`, but no tree node with graph_index `"0"` containing node 0 is
childless — the node for cluster `"0"` has the two side children created by
the split, and the sides' reclusterings were empty so the label was never
overwritten. -/
theorem labels_terminal_counterexample :
    algorithm_g envSplit [witJ] false 2 =
      some (witC4res.1, witC4res.2.1, witC4res.2.2) ∧
    witC4res.2.1.lookup 0 = some "0" ∧
    ¬ ∃ nd ∈ witC4res.2.2, witC4res.2.1.lookup 0 = some nd.graph_index ∧
      0 ∈ nd.nodeSet ∧ nd.children = [] := by
  refine ⟨by decide, by decide, by decide⟩

/-- Claim C4 (amended): at termination, for every node `u` of the input
graph that belonged to some initial cluster, `labels[u]` is defined and
equals the `graph_index` of a tree node whose node set contains `u` (the
tree node need not be childless). -/
theorem algorithmG_labels_tree_node (env : Env) (gs : List IntangibleSubgraph)
    (quiet : Bool) (fuel : Nat) (ans : List IntangibleSubgraph)
    (labels : List (Nat × String)) (arena : List TreeNodeData)
    (h : algorithm_g env gs quiet fuel = some (ans, labels, arena))
    (u : Nat) (g : IntangibleSubgraph) (hg : g ∈ gs) (hu : u ∈ g.subset) :
    ∃ s : String, labels.lookup u = some s ∧
      ∃ (j : Nat) (nd : TreeNodeData), arena[j]? = some nd ∧
        nd.graph_index = s ∧ u ∈ nd.nodeSet := by
  simp only [algorithm_g] at h
  cases hl : loopG env fuel (initState env gs) with
  | none =>
    rw [hl] at h
    cases h
  | some stf =>
    rw [hl] at h
    simp only [Option.some.injEq, Prod.mk.injEq] at h
    have hsome := loopG_covered env fuel (initState env gs) stf hl u
      (Or.inr ⟨g, hg, hu⟩)
    obtain ⟨s, hss⟩ := Option.isSome_iff_exists.mp hsome
    have hlok := loopG_inv env fuel (initState env gs) stf hl
      (initState_labelsOk env gs) (initState_stackOk env gs)
    obtain ⟨j, nd, hj, hgs2, hus⟩ := hlok u s hss
    refine ⟨s, ?_, j, nd, ?_, hgs2, hus⟩
    · rw [← h.2.1]
      exact hss
    · rw [← h.2.2]
      exact hj

theorem algorithmG_labels_tree_node_witness :
    ∃ s : String, witC4res.2.1.lookup 0 = some s ∧
      ∃ (j : Nat) (nd : TreeNodeData), witC4res.2.2[j]? = some nd ∧
        nd.graph_index = s ∧ 0 ∈ nd.nodeSet :=
  algorithmG_labels_tree_node envSplit [witJ] false 2 witC4res.1 witC4res.2.1
    witC4res.2.2 (by decide) 0 witJ (by decide) (by decide)

/-! ## Claim C8: the clustering-file loader -/

theorem addClusterLine_present (acc : List IntangibleSubgraph) (n : Nat)
    (cid : String) (h : acc.any (fun c => c.index = cid)) :
    addClusterLine acc n cid = acc.map (fun c =>
      if c.index = cid then { c with subset := c.subset ++ [n] } else c) := by
  unfold addClusterLine
  rw [if_pos h]

theorem addClusterLine_absent (acc : List IntangibleSubgraph) (n : Nat)
    (cid : String) (h : ¬ acc.any (fun c => c.index = cid)) :
    addClusterLine acc n cid = acc ++ [{ subset := [n], index := cid }] := by
  unfold addClusterLine
  rw [if_neg h]

theorem addClusterLine_map_index (acc : List IntangibleSubgraph) (n : Nat)
    (cid : String) :
    (addClusterLine acc n cid).map (fun c => c.index) =
      if acc.any (fun c => c.index = cid) then acc.map (fun c => c.index)
      else acc.map (fun c => c.index) ++ [cid] := by
  by_cases h : acc.any (fun c => c.index = cid)
  · rw [addClusterLine_present acc n cid h, if_pos h, List.map_map]
    apply List.map_congr_left
    intro c hc
    by_cases hi : c.index = cid
    · simp [hi]
    · simp [hi]
  · rw [addClusterLine_absent acc n cid h, if_neg h]
    simp

theorem addClusterLine_nodup (acc : List IntangibleSubgraph) (n : Nat)
    (cid : String) (h : (acc.map (fun c => c.index)).Nodup) :
    ((addClusterLine acc n cid).map (fun c => c.index)).Nodup := by
  rw [addClusterLine_map_index]
  by_cases ha : acc.any (fun c => c.index = cid)
  · rw [if_pos ha]
    exact h
  · rw [if_neg ha]
    rw [List.nodup_append]
    refine ⟨h, List.nodup_singleton cid, ?_⟩
    intro x hx hx2
    rw [List.mem_singleton.mp hx2] at hx
    obtain ⟨c, hc, hci⟩ := List.mem_map.mp hx
    exact ha (List.any_eq_true.mpr ⟨c, hc, by simp [hci]⟩)

theorem fold_addClusterLine_spec (rest : List (Nat × String))
    (acc : List IntangibleSubgraph)
    (hnd : (acc.map (fun c => c.index)).Nodup) :
    ((rest.foldl (fun a p => addClusterLine a p.1 p.2) acc).map
      (fun c => c.index)).Nodup ∧
    (∀ c ∈ rest.foldl (fun a p => addClusterLine a p.1 p.2) acc,
      (∃ c0 ∈ acc, c0.index = c.index ∧
        c.subset = c0.subset ++
          (rest.filter (fun p => p.2 = c.index)).map Prod.fst) ∨
      ((∀ c0 ∈ acc, c0.index ≠ c.index) ∧
        c.subset = (rest.filter (fun p => p.2 = c.index)).map Prod.fst)) ∧
    (∀ c0 ∈ acc, ∃ c ∈ rest.foldl (fun a p => addClusterLine a p.1 p.2) acc,
      c.index = c0.index) ∧
    (∀ p ∈ rest, ∃ c ∈ rest.foldl (fun a p => addClusterLine a p.1 p.2) acc,
      c.index = p.2) := by
  induction rest generalizing acc with
  | nil =>
    refine ⟨hnd, ?_, ?_, ?_⟩
    · intro c hc
      left
      exact ⟨c, hc, rfl, by simp⟩
    · intro c0 hc0
      exact ⟨c0, hc0, rfl⟩
    · intro p hp
      cases hp
  | cons q rest ih =>
    obtain ⟨n, cid⟩ := q
    have hstep : (n, cid) :: rest = [(n, cid)] ++ rest := rfl
    have hnd2 : ((addClusterLine acc n cid).map (fun c => c.index)).Nodup :=
      addClusterLine_nodup acc n cid hnd
    obtain ⟨ihnd, ihmem, ihacc, ihline⟩ := ih (addClusterLine acc n cid) hnd2
    have hfold : ((n, cid) :: rest).foldl (fun a p => addClusterLine a p.1 p.2) acc =
        rest.foldl (fun a p => addClusterLine a p.1 p.2) (addClusterLine acc n cid) :=
      rfl
    have hcidmem : ∃ c1 ∈ addClusterLine acc n cid, c1.index = cid := by
      by_cases ha : acc.any (fun c => c.index = cid)
      · obtain ⟨c0, hc0, hc0i⟩ := List.any_eq_true.mp ha
        rw [addClusterLine_present acc n cid ha]
        refine ⟨if c0.index = cid then { c0 with subset := c0.subset ++ [n] }
          else c0, List.mem_map_of_mem _ hc0, ?_⟩
        rw [if_pos (by simpa using hc0i)]
        simpa using hc0i
      · rw [addClusterLine_absent acc n cid ha]
        exact ⟨{ subset := [n], index := cid }, by simp, rfl⟩
    refine ⟨by rw [hfold]; exact ihnd, ?_, ?_, ?_⟩
    · intro c hc
      rw [hfold] at hc
      have hfc : (((n, cid) :: rest).filter
          (fun p => p.2 = c.index)).map Prod.fst =
          if cid = c.index
          then n :: (rest.filter (fun p => p.2 = c.index)).map Prod.fst
          else (rest.filter (fun p => p.2 = c.index)).map Prod.fst := by
        by_cases hq : cid = c.index
        · rw [List.filter_cons]
          simp [hq]
        · rw [List.filter_cons]
          simp [hq]
      rcases ihmem c hc with ⟨c1, hc1, hc1i, hc1s⟩ | ⟨hnone, hsub⟩
      · by_cases ha : acc.any (fun cc => cc.index = cid)
        · rw [addClusterLine_present acc n cid ha] at hc1
          obtain ⟨c0, hc0, hc0eq⟩ := List.mem_map.mp hc1
          by_cases hi : c0.index = cid
          · rw [if_pos hi] at hc0eq
            left
            refine ⟨c0, hc0, ?_, ?_⟩
            · rw [← hc0eq] at hc1i
              rw [← hc1i]
            · have hcidc : cid = c.index := by
                rw [← hc1i, ← hc0eq]
                exact hi.symm
              rw [hfc, if_pos hcidc, hc1s, ← hc0eq]
              simp
          · rw [if_neg hi] at hc0eq
            left
            refine ⟨c0, hc0, ?_, ?_⟩
            · rw [← hc0eq] at hc1i
              exact hc1i
            · have hcidc : ¬ cid = c.index := by
                rw [← hc1i, ← hc0eq]
                exact fun hq => hi hq.symm
              rw [hfc, if_neg hcidc, hc1s, hc0eq]
        · rw [addClusterLine_absent acc n cid ha] at hc1
          rcases List.mem_append.mp hc1 with hc1 | hc1
          · left
            refine ⟨c1, hc1, hc1i, ?_⟩
            have hcidc : ¬ cid = c.index := by
              intro hq
              refine ha (List.any_eq_true.mpr ⟨c1, hc1, ?_⟩)
              simp [hc1i, ← hq]
            rw [hfc, if_neg hcidc]
            exact hc1s
          · right
            have hc1v : c1 = { subset := [n], index := cid } :=
              List.mem_singleton.mp hc1
            have hcidc : cid = c.index := by
              rw [← hc1i, hc1v]
            constructor
            · intro c0 hc0 hc0i
              refine ha (List.any_eq_true.mpr ⟨c0, hc0, ?_⟩)
              simp [hc0i, ← hcidc]
            · rw [hfc, if_pos hcidc, hc1s, hc1v]
              rfl
      · right
        constructor
        · intro c0 hc0 hc0i
          by_cases ha : acc.any (fun cc => cc.index = cid)
          · refine hnone (if c0.index = cid then { c0 with subset := c0.subset ++ [n] }
              else c0) ?_ ?_
            · rw [addClusterLine_present acc n cid ha]
              exact List.mem_map_of_mem _ hc0
            · by_cases hi : c0.index = cid
              · rw [if_pos hi]
                simpa using hc0i
              · rw [if_neg hi]
                exact hc0i
          · refine hnone c0 ?_ hc0i
            rw [addClusterLine_absent acc n cid ha]
            exact List.mem_append.mpr (Or.inl hc0)
        · have hcidc : ¬ cid = c.index := by
            intro hq
            obtain ⟨c1, hc1, hc1i⟩ := hcidmem
            exact hnone c1 hc1 (by rw [hc1i]; exact hq)
          rw [hfc, if_neg hcidc]
          exact hsub
    · intro c0 hc0
      by_cases ha : acc.any (fun cc => cc.index = cid)
      · have hmem2 : (if c0.index = cid then { c0 with subset := c0.subset ++ [n] }
            else c0) ∈ addClusterLine acc n cid := by
          rw [addClusterLine_present acc n cid ha]
          exact List.mem_map_of_mem _ hc0
        obtain ⟨c, hc, hci⟩ := ihacc _ hmem2
        refine ⟨c, by rw [hfold]; exact hc, ?_⟩
        rw [hci]
        by_cases hi : c0.index = cid
        · simp [hi]
        · rw [if_neg hi]
      · have hmem2 : c0 ∈ addClusterLine acc n cid := by
          rw [addClusterLine_absent acc n cid ha]
          exact List.mem_append.mpr (Or.inl hc0)
        obtain ⟨c, hc, hci⟩ := ihacc c0 hmem2
        exact ⟨c, by rw [hfold]; exact hc, hci⟩
    · intro p hp
      rcases List.mem_cons.mp hp with hp | hp
      · obtain ⟨c1, hc1, hc1i⟩ := hcidmem
        obtain ⟨c, hc, hci⟩ := ihacc c1 hc1
        refine ⟨c, by rw [hfold]; exact hc, ?_⟩
        rw [hci, hc1i, hp]
      · obtain ⟨c, hc, hci⟩ := ihline p hp
        exact ⟨c, by rw [hfold]; exact hc, hci⟩

/-- Claim C8: `from_existing_clustering` groups the file's lines by cluster
id — one cluster per distinct id, in first-appearance order (distinctness
is the Nodup of the returned indices) — keeps the original node ids of each
cluster in file order, and drops every cluster of size ≤ 1. -/
theorem from_existing_clustering_spec (lines : List (Nat × String)) :
    (∀ c ∈ from_existing_clustering lines,
      c.subset = (lines.filter (fun p => p.2 = c.index)).map Prod.fst ∧
      1 < c.n) ∧
    (∀ cid : String, 1 < (lines.filter (fun p => p.2 = cid)).length →
      ∃ c ∈ from_existing_clustering lines, c.index = cid) ∧
    ((from_existing_clustering lines).map (fun c => c.index)).Nodup := by
  obtain ⟨hnd, hmem, hacc, hline⟩ := fold_addClusterLine_spec lines [] (by simp)
  have hdef : from_existing_clustering lines =
      (lines.foldl (fun a p => addClusterLine a p.1 p.2) []).filter
        (fun v => 1 < v.n) := rfl
  refine ⟨?_, ?_, ?_⟩
  · intro c hc
    rw [hdef] at hc
    have hc2 := List.mem_of_mem_filter hc
    have hnlt : 1 < c.n := by simpa using List.of_mem_filter hc
    rcases hmem c hc2 with ⟨c0, hc0, _⟩ | ⟨_, hsub⟩
    · cases hc0
    · exact ⟨hsub, hnlt⟩
  · intro cid hlen
    have hne : lines.filter (fun p => p.2 = cid) ≠ [] := by
      intro hq
      rw [hq] at hlen
      simp at hlen
    obtain ⟨p, hp⟩ := List.exists_mem_of_ne_nil _ hne
    have hpl : p ∈ lines := List.mem_of_mem_filter hp
    have hpc : p.2 = cid := by simpa using List.of_mem_filter hp
    obtain ⟨c, hc, hci⟩ := hline p hpl
    have hcidx : c.index = cid := by rw [hci, hpc]
    rcases hmem c hc with ⟨c0, hc0, _⟩ | ⟨_, hsub⟩
    · cases hc0
    · have hn : 1 < c.n := by
        unfold IntangibleSubgraph.n
        rw [hsub, hcidx, List.length_map]
        exact hlen
      refine ⟨c, ?_, hcidx⟩
      rw [hdef]
      exact List.mem_filter.mpr ⟨hc, by simpa using hn⟩
  · rw [hdef]
    exact List.Nodup.sublist (List.Sublist.map _ (List.filter_sublist _)) hnd

theorem from_existing_clustering_spec_witness :
    (∀ c ∈ from_existing_clustering [(1, "a"), (2, "a"), (3, "b")],
      c.subset = ([(1, "a"), (2, "a"), (3, "b")].filter
        (fun p => p.2 = c.index)).map Prod.fst ∧
      1 < c.n) ∧
    (∀ cid : String,
      1 < ([(1, "a"), (2, "a"), (3, "b")].filter (fun p => p.2 = cid)).length →
      ∃ c ∈ from_existing_clustering [(1, "a"), (2, "a"), (3, "b")],
        c.index = cid) ∧
    ((from_existing_clustering [(1, "a"), (2, "a"), (3, "b")]).map
      (fun c => c.index)).Nodup :=
  from_existing_clustering_spec [(1, "a"), (2, "a"), (3, "b")]

/-! ## Claims C9 and C10: the stubbed command runner and MCL wrapper -/

/-- Claim C9: for every command list, `run` of source/cmd.py only logs the
joined command string and returns normally (the subprocess invocation is
commented out), and it never raises: the try body never produces an
exception, so the `FileNotFoundError` and `CalledProcessError` handlers
are unreachable. -/
theorem cmdRun_spec (cmd_list : List String) (check_errors : Bool) :
    cmdRun cmd_list check_errors =
      Except.ok ["Executing " ++ String.intercalate " " cmd_list] ∧
    ∀ e : PyExn, cmdTryBody cmd_list check_errors ≠ Except.error e := by
  constructor
  · rfl
  · intro e h
    simp [cmdTryBody] at h

theorem cmdRun_spec_witness :
    cmdRun ["Rscript", "clean.R"] true =
      Except.ok ["Executing " ++ String.intercalate " " ["Rscript", "clean.R"]] ∧
    ∀ e : PyExn, cmdTryBody ["Rscript", "clean.R"] true ≠ Except.error e :=
  cmdRun_spec ["Rscript", "clean.R"] true

/-- Claim C10: `MCLClusterer.cluster` returns `None` (modeled `none`) for
every input — every `yield` in its body is commented out — and
`MCLClusterer.run_mcl` has no effect (its body is `pass`); MCL reclustering
therefore never produces any clusters. -/
theorem mcl_cluster_none (self : MCLClusterer) (graph : MclGraphView)
    (raw_filename edge_list_path : String) :
    MCLClusterer.cluster self graph raw_filename edge_list_path = none ∧
    ∀ (e o : String), MCLClusterer.run_mcl self e graph o = () :=
  ⟨rfl, fun _ _ => rfl⟩

theorem mcl_cluster_none_witness :
    MCLClusterer.cluster { k := 2 } { index := "5a6b2", continuous_ids := [(7, 0)] }
      "mcl.raw" "edges.tsv" = none ∧
    ∀ (e o : String), MCLClusterer.run_mcl { k := 2 }
      e { index := "5a6b2", continuous_ids := [(7, 0)] } o = () :=
  mcl_cluster_none { k := 2 } { index := "5a6b2", continuous_ids := [(7, 0)] }
    "mcl.raw" "edges.tsv"
